import Mathlib

/-!
Verification development for the jrsls language server (Rust sources under
src/).  The Rust code is shallowly embedded: documents (ropey ropes) are
modelled as their character lists with byte index = char index (all concrete
documents used here are ASCII, where the two coincide), tree-sitter syntax
trees are modelled by the inductive `JNode`, and fallible or panicking code
returns `Option` or `Except`.  Each definition mirrors one Rust function and
is named after it.
-/

/-- Characters of a string, used to model both Rust `str` and `ropey::Rope`
slices over ASCII text. -/
def strChars (s : String) : List Char := s.data

/-- Slice of a character list for the half open range `[a, b)`. -/
def listSlice (l : List Char) (a b : Nat) : List Char := (l.drop a).take (b - a)

/-- Model of `rope.slice(a..b).to_string()` (byte index = char index). -/
def sliceStr (s : String) (a b : Nat) : String := String.mk (listSlice s.data a b)

/-- Tests whether the first list is an initial segment of the second. -/
def listIsInit : List Char → List Char → Bool
  | [], _ => true
  | _ :: _, [] => false
  | a :: as, b :: bs => a = b && listIsInit as bs

/-- Model of Rust `str::starts_with`. -/
def strStartsWith (s pat : String) : Bool := listIsInit pat.data s.data

/-- Model of Rust `str::ends_with`. -/
def strEndsWith (s pat : String) : Bool := listIsInit pat.data.reverse s.data.reverse

/-- Substring containment over character lists. -/
def listContainsSub (l pat : List Char) : Bool :=
  if listIsInit pat l then true
  else
    match l with
    | [] => false
    | _ :: t => listContainsSub t pat

/-- Model of Rust `str::contains` for a string pattern. -/
def strContainsSub (s pat : String) : Bool := listContainsSub s.data pat.data

/-- Splits a character list on a separator, keeping empty chunks, like Rust
`str::split(sep)`. -/
def splitOnChar (sep : Char) : List Char → List (List Char)
  | [] => [[]]
  | c :: t =>
    let r := splitOnChar sep t
    if c = sep then [] :: r
    else
      match r with
      | [] => [[c]]
      | h :: t2 => (c :: h) :: t2

/-- Model of Rust `str::split('.')` collected into a vector. -/
def strSplitDot (s : String) : List String := (splitOnChar '.' s.data).map String.mk

/-- Splits a character list at characters satisfying `p`, dropping empty
chunks, like `str::split(pred).filter(not empty)`. -/
def splitWhenChar (p : Char → Bool) : List Char → List (List Char)
  | [] => [[]]
  | c :: t =>
    let r := splitWhenChar p t
    if p c then [] :: r
    else
      match r with
      | [] => [[c]]
      | h :: t2 => (c :: h) :: t2

/-- Lines of a document including their trailing newline, as iterated by
`Rope::lines` in ropey: a document always has at least one line, and a
trailing newline opens a final empty line. -/
def splitLines : List Char → List (List Char)
  | [] => [[]]
  | c :: t =>
    let r := splitLines t
    if c = '\n' then [c] :: r
    else
      match r with
      | [] => [[c]]
      | h :: t2 => (c :: h) :: t2

/-- Model of `Rope::lines()` as strings. -/
def ropeLines (s : String) : List String := (splitLines s.data).map String.mk

/-- Character indices at which lines start (index 0 plus one past every
newline). -/
def newlineStarts : List Char → Nat → List Nat
  | [], _ => []
  | c :: t, i =>
    if c = '\n' then (i + 1) :: newlineStarts t (i + 1) else newlineStarts t (i + 1)

/-- Start indices of all lines of a document. -/
def lineStarts (s : String) : List Nat := 0 :: newlineStarts s.data 0

/-- Model of `Rope::len_lines()`: number of lines (newline count plus one). -/
def lenLines (s : String) : Nat := (lineStarts s).length

/-- Model of `Rope::len_chars()`. -/
def lenChars (s : String) : Nat := s.data.length

/-- Model of `Rope::line_to_char(line)` for in-bounds lines (the only way the
embedded code calls it): the character index where the line starts. -/
def lineToChar (s : String) (line : Nat) : Nat := (lineStarts s).getD line s.data.length

/-- Scheme of a URI string, modelling `Url::scheme()` (the part before the
first colon). -/
def uriScheme (u : String) : String := String.mk (u.data.takeWhile (fun c => c ≠ ':'))

/-- Inferred Java type, from `src/ast.rs` (`enum InferredType`). -/
inductive InferredType where
  | Int
  | Long
  | Boolean
  | Char
  | String
  | Float
  | Double
  | Class (name : String)
  | Unknown
deriving DecidableEq, Repr

/-- Overload score for one argument/parameter pair, from `calculate_score` in
`src/utils.rs`. -/
def calculate_score (arg_type param_type : InferredType) : Int :=
  if arg_type = param_type then 100
  else
    match arg_type, param_type with
    | .Unknown, _ => 1
    | .Int, .Long => 50
    | .Int, .Float => 40
    | .Int, .Double => 50
    | .Long, .Float => 40
    | .Long, .Double => 50
    | .Float, .Double => 50
    | .Double, .Float => -100
    | .Double, .Int => -100
    | .Class a, .Class b => if a = b then 100 else 0
    | _, _ => -100

/-- Shallow model of a tree-sitter syntax node: its kind, the field name under
which it sits in its parent (empty when none), whether it is a named node,
its byte range in the document, its point range (row, column), and its
children in document order. -/
inductive JNode where
  | mk (kind : String) (fieldName : String) (isNamed : Bool)
       (startByte endByte : Nat)
       (rangeStart rangeEnd : Nat × Nat)
       (children : List JNode)

/-- Kind of a node (`Node::kind`). -/
def JNode.kind : JNode → String
  | .mk k _ _ _ _ _ _ _ => k

/-- Field name under which the node sits in its parent. -/
def JNode.fieldName : JNode → String
  | .mk _ f _ _ _ _ _ _ => f

/-- Whether the node is a named node (`Node::is_named`). -/
def JNode.isNamed : JNode → Bool
  | .mk _ _ b _ _ _ _ _ => b

/-- Start byte of the node (`Node::start_byte`). -/
def JNode.startByte : JNode → Nat
  | .mk _ _ _ s _ _ _ _ => s

/-- End byte of the node (`Node::end_byte`). -/
def JNode.endByte : JNode → Nat
  | .mk _ _ _ _ e _ _ _ => e

/-- Start point of the node (`Node::start_position`). -/
def JNode.rangeStart : JNode → Nat × Nat
  | .mk _ _ _ _ _ p _ _ => p

/-- End point of the node (`Node::end_position`). -/
def JNode.rangeEnd : JNode → Nat × Nat
  | .mk _ _ _ _ _ _ p _ => p

/-- Children of the node in document order (`Node::children`). -/
def JNode.children : JNode → List JNode
  | .mk _ _ _ _ _ _ _ cs => cs

/-- Model of `Node::child_by_field_name`: the first child carrying the field. -/
def JNode.childByField (n : JNode) (f : String) : Option JNode :=
  n.children.find? (fun c => c.fieldName = f)

/-- Named children of a node. -/
def JNode.namedChildren (n : JNode) : List JNode :=
  n.children.filter (fun c => c.isNamed)

/-- Model of `Node::named_child(0)`. -/
def JNode.namedChild0 (n : JNode) : Option JNode := n.namedChildren.head?

/-- Model of `get_node_text` from `src/utils.rs`: the document slice covered
by the node. -/
def get_node_text (n : JNode) (rope : String) : String :=
  sliceStr rope n.startByte n.endByte

/-- An LSP position (line, character), from `lsp_types::Position`. -/
structure Position where
  line : Nat
  character : Nat
deriving DecidableEq, Repr

/-- An LSP range, from `lsp_types::Range`, holding the start and end points. -/
structure Range where
  start : Nat × Nat
  stop : Nat × Nat
deriving DecidableEq, Repr

/-- Model of `node_range` from `src/utils.rs`: the range built from the start
and end points of the node. -/
def node_range (n : JNode) (_rope : String) : Range :=
  { start := n.rangeStart, stop := n.rangeEnd }

/-- An LSP location, from `lsp_types::Location` (URI modelled as a string). -/
structure Location where
  uri : String
  range : Range
deriving DecidableEq, Repr

/-- A node together with its chain of ancestors, innermost first.  This plays
the role of a tree-sitter node handle, whose `parent()` is the head of
`ancestors`. -/
structure Cursor where
  ancestors : List JNode
  node : JNode

/-- Parent accessor of a cursor (`Node::parent`). -/
def Cursor.parent (c : Cursor) : Option JNode := c.ancestors.head?

mutual

/-- Number of nodes in a tree, used as the recursion fuel for the embedded
tree walks (defined mutually with the node count of a child list so that it
is structurally recursive and computable). -/
def JNode.size : JNode → Nat
  | .mk _ _ _ _ _ _ _ cs => 1 + JNode.sizeList cs

/-- Total node count of a list of trees. -/
def JNode.sizeList : List JNode → Nat
  | [] => 0
  | c :: t => JNode.size c + JNode.sizeList t

end

/-- Per file facts, from `FileInfo` in `src/state.rs`. -/
structure FileInfo where
  package_name : Option String
  imports : List String
  defined_classes : List String
deriving DecidableEq, Repr

/-- Class lookup record, from `ClassLocation` in `src/state.rs` (URI modelled
as a string). -/
structure ClassLocation where
  fqcn : String
  uri : String
  range : Range
deriving DecidableEq, Repr

/-- Member record.  `src/state.rs` in this snapshot declares only `name`,
`fqmn`, `uri`, `range`; the resolver in `src/lang/java.rs` additionally reads
`is_field`, `is_varargs`, `param_count`, `param_types` (fed directly to
`calculate_score`, hence inferred types) and `field_type`, matching the
`IndexedMember` record of the specification.  The model merges the stored
record and the lookup record into one structure carrying all of these
fields. -/
structure MemberLocation where
  name : String
  fqmn : String
  uri : String
  range : Range
  is_field : Bool
  is_varargs : Bool
  param_count : Nat
  param_types : List InferredType
  field_type : Option InferredType
deriving DecidableEq, Repr

/-- Indexed class record, from `IndexedClass` in `src/state.rs`. -/
structure IndexedClass where
  short_name : String
  fqcn : String
  uri : String
  range : Range
deriving DecidableEq, Repr

/-- Contents stored for one file, from the `FileIndex` salsa input in
`src/state.rs`. -/
structure FileIndexData where
  package_name : Option String
  imports : List String
  classes : List IndexedClass
  members : List MemberLocation
deriving DecidableEq, Repr

/-- The global index, from `GlobalIndex` in `src/state.rs`: a mapping from
file URI to the records of that file, modelled as an association list (the
`DashMap` of handles). -/
abbrev GlobalIndex := List (String × FileIndexData)

/-- Model of `GlobalIndex::upsert_file`: an occupied entry has all four
record fields replaced; a vacant entry is inserted. -/
def upsert_file (idx : GlobalIndex) (uri : String) (d : FileIndexData) : GlobalIndex :=
  match idx.find? (fun p => p.1 = uri) with
  | some _ => idx.map (fun p => if p.1 = uri then (uri, d) else p)
  | none => idx ++ [(uri, d)]

/-- Model of `GlobalIndex::file_info`. -/
def file_info (idx : GlobalIndex) (uri : String) : Option FileInfo :=
  (idx.find? (fun p => p.1 = uri)).map fun p =>
    { package_name := p.2.package_name
      imports := p.2.imports
      defined_classes := p.2.classes.map (fun c => c.short_name) }

/-- Model of `GlobalIndex::classes_by_short_name`: all matching classes
across every indexed file. -/
def classes_by_short_name (idx : GlobalIndex) (short_name : String) : List ClassLocation :=
  (idx.map (fun p =>
    (p.2.classes.filter (fun c => c.short_name = short_name)).map
      (fun c => ({ fqcn := c.fqcn, uri := c.uri, range := c.range } : ClassLocation)))).join

/-- Model of `GlobalIndex::members_by_name`: all members with the given name
across every indexed file. -/
def members_by_name (idx : GlobalIndex) (name : String) : List MemberLocation :=
  (idx.map (fun p => p.2.members.filter (fun m => m.name = name))).join

/-- Modelled from the spec: `members_of_class(fqcn)` (§4.D) is called by
`src/lang/java.rs` but its implementation is missing from `src/state.rs` in
this snapshot; per the spec it returns the members declared directly in the
class with the given fully qualified name, i.e. those whose fully qualified
member name is the class name followed by a dot and the member name. -/
def members_of_class (idx : GlobalIndex) (fqcn : String) : List MemberLocation :=
  (idx.map (fun p =>
    p.2.members.filter (fun m => m.fqmn = fqcn ++ "." ++ m.name))).join

/-- Model of `parse_java_type` from `src/ast.rs`. -/
def parse_java_type (type_node : JNode) (rope : String) : InferredType :=
  match get_node_text type_node rope with
  | "int" => .Int
  | "Integer" => .Int
  | "long" => .Long
  | "Long" => .Long
  | "boolean" => .Boolean
  | "Boolean" => .Boolean
  | "char" => .Char
  | "Character" => .Char
  | "float" => .Float
  | "Float" => .Float
  | "double" => .Double
  | "Double" => .Double
  | "String" => .String
  | text => .Class text

/-- Model of `find_in_declarators` from `src/inference.rs`: the first
`variable_declarator` child whose name matches. -/
def find_in_declarators (declaration_node : JNode) (target_name : String) (rope : String) :
    Option JNode :=
  declaration_node.children.find? (fun child =>
    child.kind = "variable_declarator" &&
    (match child.childByField "name" with
     | some name_node => get_node_text name_node rope = target_name
     | none => false))

/-- Walk of the ancestor chain done by `find_declaration_node` in
`src/inference.rs`; for each ancestor it checks, in order, method and
constructor parameters, block locals, enhanced for loop variables, class
fields, and try with resources resources. -/
def find_declaration_go (target_name : String) (rope : String) :
    List JNode → Option Cursor
  | [] => none
  | parent :: rest =>
    (if parent.kind = "method_declaration" ∨ parent.kind = "constructor_declaration" then
      match parent.childByField "parameters" with
      | some params =>
        (params.children.find? (fun p =>
          (p.kind = "formal_parameter" || p.kind = "spread_parameter") &&
          (match p.childByField "name" with
           | some nm => get_node_text nm rope = target_name
           | none => false))).map
          (fun p => ({ ancestors := params :: parent :: rest, node := p } : Cursor))
      | none => none
    else none) <|>
    (if parent.kind = "block" then
      parent.children.findSome? (fun child =>
        if child.kind = "local_variable_declaration" then
          (find_in_declarators child target_name rope).map
            (fun v => ({ ancestors := child :: parent :: rest, node := v } : Cursor))
        else none)
    else none) <|>
    (if parent.kind = "enhanced_for_statement" then
      (match parent.childByField "name" with
       | some name_node =>
         if get_node_text name_node rope = target_name then
           some ({ ancestors := rest, node := parent } : Cursor)
         else none
       | none => none) <|>
      parent.children.findSome? (fun child =>
        if child.kind = "formal_parameter" then
          match child.childByField "name" with
          | some nm =>
            if get_node_text nm rope = target_name then
              some ({ ancestors := parent :: rest, node := child } : Cursor)
            else none
          | none => none
        else none)
    else none) <|>
    (if parent.kind = "class_declaration" then
      match parent.childByField "body" with
      | some body =>
        body.children.findSome? (fun child =>
          if child.kind = "field_declaration" then
            (find_in_declarators child target_name rope).map
              (fun v => ({ ancestors := child :: body :: parent :: rest, node := v } : Cursor))
          else none)
      | none => none
    else none) <|>
    (if parent.kind = "resource_specification" then
      parent.children.findSome? (fun resource =>
        if resource.kind = "resource" then
          match resource.childByField "name" with
          | some nm =>
            if get_node_text nm rope = target_name then
              some ({ ancestors := parent :: rest, node := resource } : Cursor)
            else none
          | none => none
        else none)
    else none) <|>
    find_declaration_go target_name rope rest

/-- Model of `find_declaration_node` from `src/inference.rs`, walking the
parents of the start node. -/
def find_declaration_node (c : Cursor) (target_name : String) (rope : String) : Option Cursor :=
  find_declaration_go target_name rope c.ancestors

/-- Model of `TypeSolver::resolve_variable_type` from `src/inference.rs`. -/
def resolve_variable_type (rope : String) (c : Cursor) : InferredType :=
  let var_name := get_node_text c.node rope
  match find_declaration_node c var_name rope with
  | some defc =>
    let viaParent : Option InferredType :=
      match defc.parent with
      | some parent =>
        if parent.kind = "local_variable_declaration" ∨ parent.kind = "field_declaration" then
          (parent.childByField "type").map (fun t => parse_java_type t rope)
        else none
      | none => none
    match viaParent with
    | some t => t
    | none =>
      if defc.node.kind = "formal_parameter" then
        match defc.node.childByField "type" with
        | some t => parse_java_type t rope
        | none => .Unknown
      else .Unknown
  | none => .Unknown

/-- Walk of the ancestor chain done by `find_method_definition_node` in
`src/inference.rs`: the first method of an enclosing class whose name
matches. -/
def find_method_def_go (target_name : String) (rope : String) : List JNode → Option JNode
  | [] => none
  | parent :: rest =>
    (if parent.kind = "class_declaration" then
      match parent.childByField "body" with
      | some body =>
        body.children.find? (fun child =>
          child.kind = "method_declaration" &&
          (match child.childByField "name" with
           | some nm => get_node_text nm rope = target_name
           | none => false))
      | none => none
    else none) <|> find_method_def_go target_name rope rest

/-- Model of `TypeSolver::resolve_method_return_type` from
`src/inference.rs`: looks up the invoked name among the direct methods of the
enclosing classes and returns the declared return type (`Unknown` for
`void_type`).  It never calls type inference. -/
def resolve_method_return_type (rope : String) (c : Cursor) : InferredType :=
  match c.node.childByField "name" with
  | some name_node =>
    let method_name := get_node_text name_node rope
    match find_method_def_go method_name rope c.ancestors with
    | some def_node =>
      match def_node.childByField "type" with
      | some type_node =>
        if type_node.kind = "void_type" then .Unknown
        else parse_java_type type_node rope
      | none => .Unknown
    | none => .Unknown
  | none => .Unknown

/-- Fuel indexed implementation of `TypeSolver::infer` from
`src/inference.rs`, consuming one unit of fuel at every self call and
returning `none` when fuel runs out.  The only self call of the Rust
function, on the inner node of a parenthesized expression, descends into a
strict subnode, so a fuel of the node size is always sufficient; this is
proved by the termination theorem below, and `TypeSolver.infer`
instantiates the fuel with exactly that bound. -/
def inferFuel (rope : String) : Nat → Cursor → Option InferredType
  | 0, _ => none
  | fuel + 1, c =>
    if c.node.kind = "decimal_integer_literal" then some .Int
    else if c.node.kind = "decimal_floating_point_literal" then
      let text := get_node_text c.node rope
      if strEndsWith text "f" || strEndsWith text "F" then some .Float else some .Double
    else if c.node.kind = "string_literal" then some .String
    else if c.node.kind = "true" ∨ c.node.kind = "false" then some .Boolean
    else if c.node.kind = "identifier" then some (resolve_variable_type rope c)
    else if c.node.kind = "method_invocation" then some (resolve_method_return_type rope c)
    else if c.node.kind = "object_creation_expression" then
      match c.node.childByField "type" with
      | some type_node => some (parse_java_type type_node rope)
      | none => some .Unknown
    else if c.node.kind = "parenthesized_expression" then
      match c.node.namedChild0 with
      | some inner => inferFuel rope fuel { ancestors := c.node :: c.ancestors, node := inner }
      | none => some .Unknown
    else if c.node.kind = "cast_expression" then
      match c.node.childByField "type" with
      | some type_node => some (parse_java_type type_node rope)
      | none => some .Unknown
    else some .Unknown

/-- Model of `TypeSolver::infer` from `src/inference.rs`: by node kind,
literal typing (a decimal integer literal is always `Int` here), local
declaration lookup for identifiers, enclosing class method lookup for
invocations, type field parsing for casts and object creation, and recursion
into parenthesized expressions. -/
def TypeSolver.infer (rope : String) (c : Cursor) : InferredType :=
  (inferFuel rope c.node.size c).getD .Unknown

/-- Fuel indexed implementation of `infer_expr_type` from `src/ast.rs`; the
only self call descends into the inner node of a parenthesized expression,
so a fuel of the node size is sufficient. -/
def inferExprFuel (rope : String) : Nat → JNode → Option InferredType
  | 0, _ => none
  | fuel + 1, n =>
    if n.kind = "decimal_integer_literal" then
      let text := get_node_text n rope
      if strEndsWith text "L" || strEndsWith text "l" then some .Long else some .Int
    else if n.kind = "decimal_floating_point_literal" then
      let text := get_node_text n rope
      if strEndsWith text "f" || strEndsWith text "F" then some .Float else some .Double
    else if n.kind = "string_literal" then some .String
    else if n.kind = "true" ∨ n.kind = "false" then some .Boolean
    else if n.kind = "character_literal" then some .Char
    else if n.kind = "cast_expression" then
      match n.childByField "type" with
      | some type_node => some (parse_java_type type_node rope)
      | none => some .Unknown
    else if n.kind = "parenthesized_expression" then
      match n.namedChild0 with
      | some inner => inferExprFuel rope fuel inner
      | none => some .Unknown
    else some .Unknown

/-- Model of `infer_expr_type` from `src/ast.rs` (the literal typing helper;
note that unlike `TypeSolver::infer` it maps a decimal integer literal with a
trailing L or l to `Long`). -/
def infer_expr_type (n : JNode) (rope : String) : InferredType :=
  (inferExprFuel rope n.size n).getD .Unknown

/-- Model of `get_call_args` from `src/ast.rs`: the named children of the
`arguments` child when the parent is a method invocation. -/
def get_call_args (c : Cursor) : List Cursor :=
  match c.ancestors with
  | parent :: rest =>
    if parent.kind = "method_invocation" then
      match parent.childByField "arguments" with
      | some args_node =>
        (args_node.children.filter (fun n => n.isNamed)).map
          (fun a => ({ ancestors := args_node :: parent :: rest, node := a } : Cursor))
      | none => []
    else []
  | [] => []

/-- Descent of `Node::descendant_for_byte_range(b, b)`: recurse into the
first child covering byte `b`, collecting the ancestors on the way.  Each
step descends into a strict subnode, so a fuel of the tree size is always
sufficient. -/
def descendGo : Nat → List JNode → JNode → Nat → Cursor
  | 0, ancs, n, _ => { ancestors := ancs, node := n }
  | fuel + 1, ancs, n, b =>
    match n.children.find? (fun ch => ch.startByte ≤ b && b < ch.endByte) with
    | some ch => descendGo fuel (n :: ancs) ch b
    | none => { ancestors := ancs, node := n }

/-- The smallest descendant of the tree covering byte `b`, with its ancestor
chain. -/
def descendant_for_byte (tree : JNode) (b : Nat) : Cursor :=
  descendGo tree.size [] tree b

/-- Model of `get_node_at_pos` from `src/utils.rs`: converts the position to
a byte index, takes the smallest descendant covering it, and accepts it only
when its kind is `identifier` or `type_identifier`, returning the node and
its text. -/
def get_node_at_pos (tree : JNode) (rope : String) (position : Position) :
    Option (Cursor × String) :=
  let char_idx := lineToChar rope position.line + position.character
  let byte_idx := char_idx
  let c := descendant_for_byte tree byte_idx
  if c.node.kind = "identifier" ∨ c.node.kind = "type_identifier" then
    some (c, get_node_text c.node rope)
  else none

/-- Model of `search_scope` from `src/utils.rs`: the first local variable
declarator in the scope with the target name. -/
def search_scope (scope_node : JNode) (target_name : String) (rope : String) : Option Range :=
  scope_node.children.findSome? (fun child =>
    if child.kind = "local_variable_declaration" then
      child.children.findSome? (fun sub =>
        if sub.kind = "variable_declarator" then
          match sub.childByField "name" with
          | some nm =>
            if get_node_text nm rope = target_name then some (node_range nm rope) else none
          | none => none
        else none)
    else none)

/-- Model of `find_field_in_declaration` from `src/utils.rs`. -/
def find_field_in_declaration (node : JNode) (target_name : String) (rope : String) :
    Option Range :=
  if node.kind ≠ "field_declaration" then none
  else
    node.children.findSome? (fun sub =>
      if sub.kind = "variable_declarator" then
        match sub.childByField "name" with
        | some nm =>
          if get_node_text nm rope = target_name then some (node_range nm rope) else none
        | none => none
      else none)

/-- Model of `prefer_field_first` from `src/utils.rs`. -/
def prefer_field_first (c : Cursor) : Bool :=
  match c.parent with
  | some p => p.kind ≠ "method_invocation"
  | none => true

/-- Scoring loop of `search_class_member` in `src/utils.rs`: scores the call
arguments against the declared parameters, aborting with `none` on a missing
type field or a negative pair score (the `mismatch` flag). -/
def scoreArgsAgainst (rope : String) (def_params : List JNode) (has_varargs : Bool)
    (required_params : Nat) : Nat → List Cursor → Int → Option Int
  | _, [], acc => some acc
  | i, arg :: rest, acc =>
    let idx := if has_varargs && i ≥ required_params then def_params.length - 1 else i
    match def_params[idx]? with
    | none => none
    | some def_param =>
      match def_param.childByField "type" with
      | none => none
      | some def_type_node =>
        let arg_type := TypeSolver.infer rope arg
        let param_type := parse_java_type def_type_node rope
        let score := calculate_score arg_type param_type
        if score < 0 then none
        else scoreArgsAgainst rope def_params has_varargs required_params (i + 1) rest (acc + score)

/-- Loop body of `search_class_member` from `src/utils.rs`, carrying the
running best candidate and score; a method child without a `name` or
`parameters` field aborts the whole search (the Rust `?` operator). -/
def search_class_member_go (target_name : String) (rope : String) (call_args : List Cursor)
    (prefer_field : Bool) : List JNode → Int → Option Range → Option Range
  | [], _, best => best
  | child :: rest, max_score, best =>
    let fieldHit := find_field_in_declaration child target_name rope
    if prefer_field ∧ fieldHit.isSome then fieldHit
    else if child.kind = "method_declaration" then
      match child.childByField "name" with
      | none => none
      | some name_node =>
        if get_node_text name_node rope ≠ target_name then
          search_class_member_go target_name rope call_args prefer_field rest max_score best
        else
          match child.childByField "parameters" with
          | none => none
          | some params_node =>
            let def_params := params_node.children.filter (fun n =>
              n.kind = "formal_parameter" || n.kind = "spread_parameter")
            let has_varargs :=
              match def_params.getLast? with
              | some p => p.kind == "spread_parameter"
              | none => false
            let required_params :=
              if has_varargs then def_params.length - 1 else def_params.length
            if (!has_varargs && call_args.length != required_params) ||
                (has_varargs && decide (call_args.length < required_params)) then
              search_class_member_go target_name rope call_args prefer_field rest max_score best
            else
              match scoreArgsAgainst rope def_params has_varargs required_params 0 call_args 0 with
              | none =>
                search_class_member_go target_name rope call_args prefer_field rest max_score best
              | some current_score =>
                if current_score > max_score then
                  search_class_member_go target_name rope call_args prefer_field rest
                    current_score (some (node_range name_node rope))
                else
                  search_class_member_go target_name rope call_args prefer_field rest max_score best
    else if ¬prefer_field ∧ fieldHit.isSome then fieldHit
    else search_class_member_go target_name rope call_args prefer_field rest max_score best

/-- Model of `search_class_member` from `src/utils.rs` (the index and URI
arguments of the Rust function only feed the type solver, which does not use
them). -/
def search_class_member (class_body : JNode) (target_name : String) (rope : String)
    (call_args : List Cursor) (_index : GlobalIndex) (_uri : String) (prefer_field : Bool) :
    Option Range :=
  search_class_member_go target_name rope call_args prefer_field class_body.children (-9999) none

/-- Ancestor walk of `find_definition_in_file` from `src/utils.rs`. -/
def find_def_in_file_go (target_name : String) (rope : String) (call_args : List Cursor)
    (index : GlobalIndex) (uri : String) (pf : Bool) : List JNode → Option Range
  | [] => none
  | parent :: rest =>
    (if parent.kind = "method_declaration" then
      (match parent.childByField "parameters" with
       | some params => search_scope params target_name rope
       | none => none) <|>
      (match parent.childByField "body" with
       | some body => search_scope body target_name rope
       | none => none)
    else none) <|>
    (if parent.kind = "class_declaration" then
      match parent.childByField "body" with
      | some body => search_class_member body target_name rope call_args index uri pf
      | none => none
    else none) <|>
    find_def_in_file_go target_name rope call_args index uri pf rest

/-- Model of `find_definition_in_file` from `src/utils.rs`. -/
def find_definition_in_file (c : Cursor) (target_name : String) (rope : String)
    (call_args : List Cursor) (index : GlobalIndex) (uri : String) : Option Range :=
  find_def_in_file_go target_name rope call_args index uri (prefer_field_first c) c.ancestors

/-- Model of `match_imported_symbol` from `src/lang/java.rs`. -/
def match_imported_symbol (candidates : List ClassLocation) (imports : List String)
    (target_name : String) : Option ClassLocation :=
  imports.findSome? (fun imp =>
    if strEndsWith imp ("." ++ target_name) then
      candidates.find? (fun loc => loc.fqcn = imp)
    else none)

/-- Model of `match_same_package` from `src/lang/java.rs`. -/
def match_same_package (candidates : List ClassLocation) (package_name : String)
    (target_name : String) : Option ClassLocation :=
  candidates.find? (fun loc => loc.fqcn = package_name ++ "." ++ target_name)

/-- Model of `match_same_file` from `src/lang/java.rs`. -/
def match_same_file (candidates : List ClassLocation) (current_uri : String) :
    Option ClassLocation :=
  candidates.find? (fun loc => loc.uri = current_uri)

/-- Model of `match_java_lang` from `src/lang/java.rs`. -/
def match_java_lang (candidates : List ClassLocation) : Option ClassLocation :=
  candidates.find? (fun loc => strStartsWith loc.fqcn "java.lang.")

/-- Stable insertion of an element into a list sorted by key, placing it
before the first strictly greater key; `foldl` of this is a stable ascending
sort, the semantics of Rust `sort_by_key`. -/
def insertByKeyLt {α κ : Type} (lt : κ → κ → Bool) (key : α → κ) (x : α) :
    List α → List α
  | [] => [x]
  | y :: t => if lt (key x) (key y) then x :: y :: t else y :: insertByKeyLt lt key x t

/-- Stable sort by key (Rust `slice::sort_by_key`). -/
def stableSortByKey {α κ : Type} (lt : κ → κ → Bool) (key : α → κ) (l : List α) : List α :=
  l.foldl (fun acc x => insertByKeyLt lt key x acc) []

/-- Boolean mapped to an integer with the Rust ordering false < true. -/
def boolInt (b : Bool) : Int := if b then 1 else 0

/-- Lexicographic strict comparison of integer triples. -/
def lex3Lt (x y : Int × Int × Int) : Bool :=
  match x, y with
  | (a1, a2, a3), (b1, b2, b3) =>
    if a1 < b1 then true else if b1 < a1 then false
    else if a2 < b2 then true else if b2 < a2 then false
    else a3 < b3

/-- Lexicographic strict comparison of integer six-tuples. -/
def lex6Lt (x y : Int × Int × Int × Int × Int × Int) : Bool :=
  match x, y with
  | (a1, a2, a3, a4, a5, a6), (b1, b2, b3, b4, b5, b6) =>
    if a1 < b1 then true else if b1 < a1 then false
    else if a2 < b2 then true else if b2 < a2 then false
    else if a3 < b3 then true else if b3 < a3 then false
    else if a4 < b4 then true else if b4 < a4 then false
    else if a5 < b5 then true else if b5 < a5 then false
    else a6 < b6

/-- Model of `select_fallback` from `src/lang/java.rs`: file and untitled
scheme URIs first, then `java.lang`, then the rest (stable). -/
def select_fallback (candidates : List ClassLocation) : Option Location :=
  if candidates.isEmpty then none
  else
    let ordered := stableSortByKey lex3Lt (fun loc =>
      ((if uriScheme loc.uri = "file" ∨ uriScheme loc.uri = "untitled" then (0 : Int)
        else if strStartsWith loc.fqcn "java.lang." then 1 else 2), 0, 0)) candidates
    ordered.head?.map (fun loc => ({ uri := loc.uri, range := loc.range } : Location))

/-- Model of `priority_for_uri` from `src/lang/java.rs`. -/
def priority_for_uri (uri : String) (fqmn : String) : Int :=
  if uriScheme uri = "file" ∨ uriScheme uri = "untitled" then 0
  else if strStartsWith fqmn "java." then 1
  else 2

/-- Model of `count_args` from `src/lang/java.rs`. -/
def count_args (c : Cursor) : Nat :=
  match c.ancestors with
  | parent :: _ =>
    if parent.kind = "method_invocation" then
      ((parent.children.filter (fun n => n.fieldName = "arguments")).map
        (fun arglist => arglist.children.filter (fun n => n.kind ≠ "," ∧ n.isNamed))).join.length
    else 0
  | [] => 0

/-- Model of `has_ancestor_kind` from `src/lang/java.rs` (the walk starts at
the node itself). -/
def has_ancestor_kind (c : Cursor) (kind : String) : Bool :=
  (c.node :: c.ancestors).any (fun n => n.kind = kind)

/-- Model of `is_followed_by_paren` from `src/lang/java.rs`: the first non
whitespace character after the node is an opening parenthesis. -/
def is_followed_by_paren (c : Cursor) (rope : String) : Bool :=
  match (rope.data.drop c.node.endByte).dropWhile (fun ch => ch.isWhitespace) with
  | [] => false
  | ch :: _ => ch = '('

/-- Model of `match_member_arity` from `src/lang/java.rs` (`saturating_sub`
is natural subtraction). -/
def match_member_arity (member : MemberLocation) (arg_count : Nat) : Bool :=
  if member.is_varargs then arg_count ≥ member.param_count - 1
  else arg_count = member.param_count

/-- Inner scan of `find_local_variable` from `src/lang/java.rs` over the
children of a scope, stopping at the first child that starts at or after the
reference (forward references disallowed). -/
def scan_locals_before (rope : String) (name : String) (target_byte : Nat) :
    List JNode → Option Range
  | [] => none
  | child :: rest =>
    if child.startByte ≥ target_byte then none
    else
      (if child.kind = "local_variable_declaration" then
        child.children.findSome? (fun var =>
          if var.kind = "variable_declarator" then
            match var.childByField "name" with
            | some nm =>
              if get_node_text nm rope = name then some (node_range nm rope) else none
            | none => none
          else none)
      else none) <|> scan_locals_before rope name target_byte rest

/-- Ancestor walk of `find_local_variable` from `src/lang/java.rs`; the walk
includes the start node itself. -/
def find_local_var_go (rope : String) (name : String) (target_byte : Nat) :
    List JNode → Option Range
  | [] => none
  | n :: rest =>
    (if n.kind = "method_declaration" then
      match n.childByField "parameters" with
      | some params =>
        params.children.findSome? (fun p =>
          if p.kind = "formal_parameter" || p.kind = "spread_parameter" then
            match p.childByField "name" with
            | some nm =>
              if get_node_text nm rope = name then some (node_range nm rope) else none
            | none => none
          else none)
      | none => none
    else none) <|>
    (if n.kind = "block" ∨ n.kind = "method_declaration" ∨ n.kind = "program" then
      scan_locals_before rope name target_byte n.children
    else none) <|>
    find_local_var_go rope name target_byte rest

/-- Model of `find_local_variable` from `src/lang/java.rs`. -/
def find_local_variable (c : Cursor) (rope : String) (name : String) : Option Range :=
  find_local_var_go rope name c.node.startByte (c.node :: c.ancestors)

/-- Model of `resolve_qualifier` from `src/lang/java.rs`: the text of the
`object` child when the parent is a field access or method invocation. -/
def resolve_qualifier (c : Cursor) (rope : String) : Option String :=
  match c.parent with
  | some parent =>
    if parent.kind = "field_access" then
      (parent.childByField "object").map (fun o => get_node_text o rope)
    else if parent.kind = "method_invocation" then
      (parent.childByField "object").map (fun o => get_node_text o rope)
    else none
  | none => none

/-- Character containment in a string (Rust `str::contains(char)`). -/
def strContainsChar (s : String) (c : Char) : Bool := s.data.contains c

/-- Body of `resolve_qualifier_fqcn` from `src/lang/java.rs` for a qualifier
without dots: try imports, then the same package, then implicit `java.lang`,
then any class whose name ends with the qualifier. -/
def resolve_qualifier_fqcn_base (qualifier : String) (class_candidates : List ClassLocation)
    (fi : FileInfo) : Option String :=
  (fi.imports.findSome? (fun imp =>
    if strEndsWith imp ("." ++ qualifier) then some imp else none)) <|>
  (match fi.package_name with
   | some pkg =>
     let fqcn := pkg ++ "." ++ qualifier
     if class_candidates.any (fun c => c.fqcn = fqcn) then some fqcn else none
   | none => none) <|>
  ((class_candidates.find? (fun c => strStartsWith c.fqcn "java.lang.")).map
    (fun c => c.fqcn)) <|>
  ((class_candidates.find? (fun c =>
      strEndsWith c.fqcn ("." ++ qualifier) || c.fqcn = qualifier)).map
    (fun c => c.fqcn))

/-- Model of `resolve_qualifier_fqcn` from `src/lang/java.rs`: a dotted
qualifier recurses once with its first segment (which has no dot), so the
recursion is unfolded here. -/
def resolve_qualifier_fqcn (qualifier : String) (class_candidates : List ClassLocation)
    (fi : FileInfo) : Option String :=
  if strContainsChar qualifier '.' then
    match (strSplitDot qualifier).head? with
    | some first => resolve_qualifier_fqcn_base first class_candidates fi
    | none => resolve_qualifier_fqcn_base qualifier class_candidates fi
  else resolve_qualifier_fqcn_base qualifier class_candidates fi

/-- Model of `resolve_class_from_name` from `src/lang/java.rs`. -/
def resolve_class_from_name (name : String) (index : GlobalIndex)
    (fi : Option FileInfo) : Option String :=
  let candidates := classes_by_short_name index name
  if candidates.isEmpty then none
  else
    (match fi with
     | some info =>
       ((match_imported_symbol candidates info.imports name).map (fun l => l.fqcn)) <|>
       (match info.package_name with
        | some pkg => (match_same_package candidates pkg name).map (fun l => l.fqcn)
        | none => none)
     | none => none) <|>
    ((match_java_lang candidates).map (fun l => l.fqcn)) <|>
    (candidates.head?.map (fun c => c.fqcn))

/-- Segment loop of `resolve_qualifier_chain` from `src/lang/java.rs`:
repeated field type lookup through the members of the current class. -/
def chain_go (index : GlobalIndex) (fi : FileInfo) : List String → String → Option String
  | [], current => some current
  | part :: rest, current =>
    let members := members_of_class index current
    let field := members.find? (fun m =>
      m.is_field && strEndsWith m.fqmn ("." ++ part))
    match field.bind (fun f => f.field_type) with
    | some (InferredType.Class name) =>
      let next := (resolve_class_from_name name index (some fi)).getD name
      chain_go index fi rest next
    | _ => none

/-- Model of `resolve_qualifier_chain` from `src/lang/java.rs`. -/
def resolve_qualifier_chain (qualifier : String) (index : GlobalIndex) (fi : FileInfo) :
    Option String :=
  let parts := strSplitDot qualifier
  match parts with
  | [] => none
  | p0 :: restParts =>
    match resolve_class_from_name p0 index (some fi) with
    | none => none
    | some start_fqcn => chain_go index fi restParts start_fqcn

/-- Stack loop of `find_identifier_type` from `src/lang/java.rs`: a vector
used as a LIFO stack, so children are visited last pushed first.  Every
iteration strictly decreases the summed size of the stack
(`stack_sizeOf_step`), which starts at the size of the root, so that fuel is
always sufficient. -/
def find_identifier_type_go (rope : String) (name : String) :
    Nat → List JNode → Option String
  | 0, _ => none
  | _ + 1, [] => none
  | fuel + 1, node :: rest =>
    (if node.kind = "local_variable_declaration" ∨ node.kind = "field_declaration" then
      match node.childByField "type" with
      | some t =>
        if node.children.any (fun child =>
            child.kind = "variable_declarator" &&
            (match child.childByField "name" with
             | some nm => get_node_text nm rope = name
             | none => false)) then
          some (get_node_text t rope)
        else none
      | none => none
    else none) <|>
    find_identifier_type_go rope name fuel (node.children.reverse ++ rest)

/-- Model of `find_identifier_type` from `src/lang/java.rs`. -/
def find_identifier_type (root : JNode) (rope : String) (name : String) : Option String :=
  find_identifier_type_go rope name root.size [root]

/-- Model of `find_type_by_text_scan` from `src/lang/java.rs`: scan each line
for `<type> <name>` token pairs. -/
def find_type_by_text_scan (rope : String) (name : String) : Option String :=
  (ropeLines rope).findSome? (fun line =>
    if !strContainsSub line name then none
    else
      let tokens := (splitWhenChar (fun c => c.isWhitespace || c == ';' || c == '=')
        line.data).filter (fun l => !l.isEmpty)
      match tokens with
      | ty :: var :: _ =>
        if String.mk var = name then some (String.mk ty) else none
      | _ => none)

/-- Model of `root_of` from `src/lang/java.rs`: the topmost ancestor. -/
def root_of (c : Cursor) : JNode := c.ancestors.getLast?.getD c.node

/-- Model of `resolve_qualifier_type` from `src/lang/java.rs`: direct class
resolution, then field chain resolution, then local declaration or textual
scan. -/
def resolve_qualifier_type (c : Cursor) (rope : String) (qualifier : String)
    (index : GlobalIndex) (fi : FileInfo) : Option String :=
  (resolve_qualifier_fqcn qualifier (classes_by_short_name index qualifier) fi) <|>
  (resolve_qualifier_chain qualifier index fi) <|>
  (match (find_identifier_type (root_of c) rope qualifier) <|>
         (find_type_by_text_scan rope qualifier) with
   | some type_name =>
     (resolve_class_from_name type_name index (some fi)) <|> some type_name
   | none => none)

/-- Parameter index paired with argument `i` in `score_member` from
`src/lang/java.rs`: a varargs member maps every argument past the parameter
list onto the last parameter. -/
def varargs_param_idx (member : MemberLocation) (i : Nat) : Nat :=
  if member.is_varargs && decide (i ≥ member.param_types.length) then
    member.param_types.length - 1
  else i

/-- Scoring loop of `score_member` from `src/lang/java.rs`, over the call
arguments with their index; a negative pair score or an out of range
parameter index aborts with `none`. -/
def score_member_go (rope : String) (member : MemberLocation) :
    Nat → List Cursor → Int → Option Int
  | _, [], total => some total
  | i, arg :: rest, total =>
    let param_idx := varargs_param_idx member i
    if h : param_idx < member.param_types.length then
      let arg_type := TypeSolver.infer rope arg
      let param_type := member.param_types.get ⟨param_idx, h⟩
      let score := calculate_score arg_type param_type
      if score < 0 then none
      else score_member_go rope member (i + 1) rest (total + score)
    else none

/-- Model of `score_member` from `src/lang/java.rs` (the index and URI only
feed the type solver, which does not use them). -/
def score_member (member : MemberLocation) (call_args : List Cursor) (rope : String)
    (_index : GlobalIndex) (_current_uri : String) : Option Int :=
  if member.param_types.isEmpty then some 0
  else score_member_go rope member 0 call_args 0

/-- Candidate filter of `match_member` from `src/lang/java.rs`: members of
the resolved class (when any), fields dropped on call-like usage, then the
arity filter. -/
def member_candidates (members : List MemberLocation) (fqcn : String)
    (prefer_method_usage : Bool) (arg_count : Nat) : List MemberLocation :=
  ((members.filter (fun m =>
      fqcn.isEmpty || strStartsWith m.fqmn (fqcn ++ "."))).filter (fun m =>
      !prefer_method_usage || !m.is_field)).filter (fun m =>
      match_member_arity m arg_count)

/-- Sort key used on scored members in `match_member` from
`src/lang/java.rs`. -/
def scored_member_key (prefer_field_usage prefer_method_usage : Bool) (arg_count : Nat)
    (p : MemberLocation × Int) : Int × Int × Int × Int × Int × Int :=
  (boolInt (prefer_field_usage && !p.1.is_field),
   boolInt (prefer_method_usage && p.1.is_field),
   boolInt p.1.is_varargs,
   -p.2,
   (Int.natAbs ((p.1.param_count : Int) - (arg_count : Int)) : Int),
   priority_for_uri p.1.uri p.1.fqmn)

/-- Qualifier string used by `match_member`: the explicit qualifier, else
the one resolved from the parent node, else empty. -/
def mm_qualifier (c : Cursor) (rope : String) (qualifier : Option String) : String :=
  (qualifier <|> resolve_qualifier c rope).getD ""

/-- Resolved class of the qualifier in `match_member`, empty when
unresolved. -/
def mm_fqcn (c : Cursor) (rope : String) (qualifier : Option String)
    (index : GlobalIndex) (fi : FileInfo) : String :=
  (resolve_qualifier_type c rope (mm_qualifier c rope qualifier) index fi).getD ""

/-- The call-like usage flag of `match_member`. -/
def mm_prefer_method (c : Cursor) (rope : String) (prefer_method_usage_hint : Bool) : Bool :=
  has_ancestor_kind c "method_invocation" || prefer_method_usage_hint ||
    is_followed_by_paren c rope

/-- Model of `match_member` from `src/lang/java.rs`. -/
def match_member (c : Cursor) (rope : String) (members : List MemberLocation)
    (fi : FileInfo) (index : GlobalIndex) (qualifier : Option String)
    (call_args : List Cursor) (current_uri : String)
    (prefer_method_usage_hint : Bool) : Option Location :=
  let qualifier2 := mm_qualifier c rope qualifier
  if qualifier2.isEmpty && !prefer_method_usage_hint then none
  else
    let fqcn := mm_fqcn c rope qualifier index fi
    let arg_count := count_args c
    let prefer_method_usage := mm_prefer_method c rope prefer_method_usage_hint
    let prefer_field_usage := !prefer_method_usage && call_args.isEmpty
    let candidates := member_candidates members fqcn prefer_method_usage arg_count
    if candidates.isEmpty then
      let fallback := stableSortByKey lex3Lt (fun m =>
        (boolInt m.is_varargs, priority_for_uri m.uri m.fqmn, (m.param_count : Int))) members
      fallback.head?.map (fun m => ({ uri := m.uri, range := m.range } : Location))
    else
      let scored := candidates.filterMap (fun m =>
        (score_member m call_args rope index current_uri).map (fun s => (m, s)))
      if scored.isEmpty then none
      else
        let sorted := stableSortByKey lex6Lt
          (scored_member_key prefer_field_usage prefer_method_usage arg_count) scored
        sorted.head?.map (fun p => ({ uri := p.1.uri, range := p.1.range } : Location))

/-- Model of `goto_definition` from `src/lang/java.rs` (the `JavaService`
implementation of the `LanguageService` trait). -/
def goto_definition (tree : JNode) (rope : String) (position : Position)
    (index : GlobalIndex) (current_uri : String) : Option Location :=
  match get_node_at_pos tree rope position with
  | none => none
  | some (c, target_name) =>
    let call_args := get_call_args c
    match find_local_variable c rope target_name with
    | some range => some { uri := current_uri, range := range }
    | none =>
      if c.node.kind ≠ "identifier" ∧ c.node.kind ≠ "type_identifier" ∧
          c.node.kind ≠ "field_identifier" then none
      else
        let global_candidates := classes_by_short_name index target_name
        let global_members := members_by_name index target_name
        let qualifier := resolve_qualifier c rope
        let localDef : Option Location :=
          if qualifier.isNone then
            (find_definition_in_file c target_name rope call_args index current_uri).map
              (fun range => ({ uri := current_uri, range := range } : Location))
          else none
        match localDef with
        | some loc => some loc
        | none =>
          match file_info index current_uri with
          | none => select_fallback global_candidates
          | some fi =>
            match match_imported_symbol global_candidates fi.imports target_name with
            | some loc => some { uri := loc.uri, range := loc.range }
            | none =>
              match fi.package_name.bind (fun pkg =>
                  match_same_package global_candidates pkg target_name) with
              | some loc => some { uri := loc.uri, range := loc.range }
              | none =>
                match match_same_file global_candidates current_uri with
                | some loc => some { uri := loc.uri, range := loc.range }
                | none =>
                  let allow_member_lookup := qualifier.isSome ||
                    c.node.kind == "field_identifier" ||
                    (match c.parent with
                     | some p => p.kind == "method_invocation" || p.kind == "field_access"
                     | none => false)
                  match (if allow_member_lookup then
                      match_member c rope global_members fi index qualifier call_args
                        current_uri
                        (match c.parent with
                         | some p => p.kind == "method_invocation"
                         | none => false)
                    else none) with
                  | some loc => some loc
                  | none =>
                    match match_java_lang global_candidates with
                    | some loc => some { uri := loc.uri, range := loc.range }
                    | none => none

/-- Model of `tree_sitter::InputEdit` (points as row and column pairs). -/
structure InputEdit where
  start_byte : Nat
  old_end_byte : Nat
  new_end_byte : Nat
  start_position : Nat × Nat
  old_end_position : Nat × Nat
  new_end_position : Nat × Nat
deriving DecidableEq, Repr

/-- Model of the stored syntax tree as far as the `did_change` handler
manipulates it: either a fresh parse of a full text, or a previous tree with
an edit descriptor applied (`Tree::edit`). -/
inductive TreeModel where
  | parsed (text : String)
  | edited (t : TreeModel) (e : InputEdit)
deriving DecidableEq, Repr

/-- Per document state, from `Document` in `src/state.rs`. -/
structure DocState where
  text : String
  tree : TreeModel
deriving DecidableEq, Repr

/-- Model of `Rope::char_to_byte`, which panics when the char index exceeds
the length (byte index = char index over ASCII). -/
def charToByte (s : String) (i : Nat) : Except String Nat :=
  if i ≤ s.data.length then .ok i else .error "char_to_byte out of bounds"

/-- Model of `Rope::byte_to_char`, which panics when the byte index exceeds
the length. -/
def byteToChar (s : String) (i : Nat) : Except String Nat :=
  if i ≤ s.data.length then .ok i else .error "byte_to_char out of bounds"

/-- Model of `Rope::remove(start..stop)`, which panics when the range is
inverted or past the end. -/
def ropeRemove (s : String) (start stop : Nat) : Except String String :=
  if start ≤ stop ∧ stop ≤ s.data.length then
    .ok (String.mk (s.data.take start ++ s.data.drop stop))
  else .error "remove out of bounds"

/-- Model of `Rope::insert(i, t)`, which panics when the index exceeds the
length. -/
def ropeInsert (s : String) (i : Nat) (t : String) : Except String String :=
  if i ≤ s.data.length then
    .ok (String.mk (s.data.take i ++ t.data ++ s.data.drop i))
  else .error "insert out of bounds"

/-- Model of `Rope::char_to_line`, which panics when the index exceeds the
length; the line of a character is the number of newlines before it. -/
def charToLine (s : String) (i : Nat) : Except String Nat :=
  if i ≤ s.data.length then .ok ((s.data.take i).count '\n')
  else .error "char_to_line out of bounds"

/-- A change range of a `didChange` notification
(`TextDocumentContentChangeEvent::range`). -/
structure ChangeRange where
  start : Position
  stop : Position
deriving DecidableEq, Repr

/-- One content change of a `didChange` notification. -/
structure ContentChange where
  range : Option ChangeRange
  text : String
deriving DecidableEq, Repr

/-- Model of the per change body of the `did_change` loop in
`src/backend.rs`: full sync replaces rope and tree; an incremental change
whose start or end line is at or past the line count is skipped (the
defensive check); otherwise character indices are computed from the lines and
the client supplied character offsets, the rope is spliced, and an edit
descriptor is applied to the tree.  A rope operation outside its bounds is a
panic, modelled as `Except.error`. -/
def applyChange (doc : DocState) (change : ContentChange) : Except String DocState :=
  match change.range with
  | none => .ok { text := change.text, tree := .parsed change.text }
  | some range =>
    let start_line := range.start.line
    let end_line := range.stop.line
    if start_line ≥ lenLines doc.text ∨ end_line ≥ lenLines doc.text then .ok doc
    else do
      let start_char_idx := lineToChar doc.text start_line + range.start.character
      let end_char_idx := lineToChar doc.text end_line + range.stop.character
      let start_byte ← charToByte doc.text start_char_idx
      let old_end_byte ← charToByte doc.text end_char_idx
      let t1 ← ropeRemove doc.text start_char_idx end_char_idx
      let t2 ← ropeInsert t1 start_char_idx change.text
      let new_end_byte := start_byte + change.text.data.length
      let new_end_char_idx ← byteToChar t2 new_end_byte
      let new_end_line ← charToLine t2 new_end_char_idx
      let new_end_col := new_end_char_idx - lineToChar t2 new_end_line
      let edit : InputEdit :=
        { start_byte := start_byte
          old_end_byte := old_end_byte
          new_end_byte := new_end_byte
          start_position := (start_line, range.start.character)
          old_end_position := (end_line, range.stop.character)
          new_end_position := (new_end_line, new_end_col) }
      .ok { text := t2, tree := .edited doc.tree edit }

/-- The `for change in params.content_changes` loop of `did_change` in
`src/backend.rs`, applying the changes in order (a panic aborts the
notification). -/
def did_change_changes (doc : DocState) (changes : List ContentChange) :
    Except String DocState :=
  changes.foldlM applyChange doc

/-! Concrete instances used by the counterexamples and witnesses below.  Each
models a small Java document together with its tree-sitter parse tree, with
byte offsets and points consistent with the document text. -/

/-- Type identifier node of the document `HashMap x;`. -/
def c1Tid : JNode := .mk "type_identifier" "type" true 0 7 (0, 0) (0, 7) []

/-- Variable name node of the document `HashMap x;`. -/
def c1Xid : JNode := .mk "identifier" "name" true 8 9 (0, 8) (0, 9) []

/-- Declarator node of the document `HashMap x;`. -/
def c1Vdecl : JNode := .mk "variable_declarator" "declarator" true 8 9 (0, 8) (0, 9) [c1Xid]

/-- Semicolon node of the document `HashMap x;`. -/
def c1Semi : JNode := .mk ";" "" false 9 10 (0, 9) (0, 10) []

/-- Local variable declaration node of the document `HashMap x;`. -/
def c1Lvd : JNode :=
  .mk "local_variable_declaration" "" true 0 10 (0, 0) (0, 10) [c1Tid, c1Vdecl, c1Semi]

/-- Parse tree of the document `HashMap x;`. -/
def c1Tree : JNode := .mk "program" "" true 0 10 (0, 0) (0, 10) [c1Lvd]

/-- The document `HashMap x;`. -/
def c1Rope : String := "HashMap x;"

/-- Range of the class declared in the current file. -/
def c1CurRange : Range := ⟨(0, 0), (0, 10)⟩

/-- Range of the imported library class. -/
def c1LibRange : Range := ⟨(1, 0), (3, 1)⟩

/-- Cursor at the `HashMap` type identifier of `HashMap x;`. -/
def c1Cursor : Cursor := { ancestors := [c1Lvd, c1Tree], node := c1Tid }

/-- File facts of the current file: package `pkg`, explicit import of
`java.util.HashMap`, and a same-file class `HashMap`. -/
def c1Fi : FileInfo :=
  { package_name := some "pkg"
    imports := ["java.util.HashMap"]
    defined_classes := ["HashMap"] }

/-- Index holding both a class `HashMap` declared in the current file and an
indexed `java.util.HashMap` reachable via the explicit import. -/
def c1Index : GlobalIndex :=
  [("file:///cur/Main.java",
    { package_name := some "pkg"
      imports := ["java.util.HashMap"]
      classes := [{ short_name := "HashMap", fqcn := "pkg.HashMap",
                    uri := "file:///cur/Main.java", range := c1CurRange }]
      members := [] }),
   ("file:///lib/HashMap.java",
    { package_name := some "java.util"
      imports := []
      classes := [{ short_name := "HashMap", fqcn := "java.util.HashMap",
                    uri := "file:///lib/HashMap.java", range := c1LibRange }]
      members := [] })]

/-- Object node of the document `Data.value;`. -/
def c2Obj : JNode := .mk "identifier" "object" true 0 4 (0, 0) (0, 4) []

/-- Dot node of the document `Data.value;`. -/
def c2Dot : JNode := .mk "." "" false 4 5 (0, 4) (0, 5) []

/-- Field name node of the document `Data.value;` (kind `field_identifier`,
as the tree-sitter Java grammar produces inside a field access). -/
def c2Fid : JNode := .mk "field_identifier" "field" true 5 10 (0, 5) (0, 10) []

/-- Field access node of the document `Data.value;`. -/
def c2Fa : JNode := .mk "field_access" "" true 0 10 (0, 0) (0, 10) [c2Obj, c2Dot, c2Fid]

/-- Semicolon node of the document `Data.value;`. -/
def c2Semi : JNode := .mk ";" "" false 10 11 (0, 10) (0, 11) []

/-- Expression statement node of the document `Data.value;`. -/
def c2Es : JNode := .mk "expression_statement" "" true 0 11 (0, 0) (0, 11) [c2Fa, c2Semi]

/-- Parse tree of the document `Data.value;`. -/
def c2Tree : JNode := .mk "program" "" true 0 11 (0, 0) (0, 11) [c2Es]

/-- The document `Data.value;`. -/
def c2Rope : String := "Data.value;"

/-- Object node of the document `X.m(1.0);`. -/
def c3Obj : JNode := .mk "identifier" "object" true 0 1 (0, 0) (0, 1) []

/-- Dot node of the document `X.m(1.0);`. -/
def c3Dot : JNode := .mk "." "" false 1 2 (0, 1) (0, 2) []

/-- Method name node of the document `X.m(1.0);`. -/
def c3Name : JNode := .mk "identifier" "name" true 2 3 (0, 2) (0, 3) []

/-- Opening parenthesis node of the document `X.m(1.0);`. -/
def c3LP : JNode := .mk "(" "" false 3 4 (0, 3) (0, 4) []

/-- Floating point literal node `1.0` of the document `X.m(1.0);`. -/
def c3Lit : JNode := .mk "decimal_floating_point_literal" "" true 4 7 (0, 4) (0, 7) []

/-- Closing parenthesis node of the document `X.m(1.0);`. -/
def c3RP : JNode := .mk ")" "" false 7 8 (0, 7) (0, 8) []

/-- Argument list node of the document `X.m(1.0);`. -/
def c3Args : JNode := .mk "argument_list" "arguments" true 3 8 (0, 3) (0, 8) [c3LP, c3Lit, c3RP]

/-- Method invocation node of the document `X.m(1.0);`. -/
def c3Mi : JNode := .mk "method_invocation" "" true 0 8 (0, 0) (0, 8) [c3Obj, c3Dot, c3Name, c3Args]

/-- Semicolon node of the document `X.m(1.0);`. -/
def c3SemiN : JNode := .mk ";" "" false 8 9 (0, 8) (0, 9) []

/-- Expression statement node of the document `X.m(1.0);`. -/
def c3Es : JNode := .mk "expression_statement" "" true 0 9 (0, 0) (0, 9) [c3Mi, c3SemiN]

/-- Parse tree of the document `X.m(1.0);`. -/
def c3Tree : JNode := .mk "program" "" true 0 9 (0, 0) (0, 9) [c3Es]

/-- The document `X.m(1.0);`. -/
def c3Rope : String := "X.m(1.0);"

/-- Cursor at the method name of `X.m(1.0);`. -/
def c3Cursor : Cursor := { ancestors := [c3Mi, c3Es, c3Tree], node := c3Name }

/-- Cursor at the `1.0` argument of `X.m(1.0);`, as built by the embedded
`get_call_args`. -/
def c3ArgCursor : Cursor := { ancestors := [c3Args, c3Mi, c3Es, c3Tree], node := c3Lit }

/-- Indexed member `pkg.X.m(int)`, whose parameter rejects a `double`
argument with a negative score. -/
def c3Member : MemberLocation :=
  { name := "m", fqmn := "pkg.X.m", uri := "file:///lib/X.java", range := ⟨(2, 0), (2, 1)⟩,
    is_field := false, is_varargs := false, param_count := 1,
    param_types := [.Int], field_type := none }

/-- File facts importing `pkg.X`, so the qualifier `X` resolves to `pkg.X`. -/
def c3Fi : FileInfo :=
  { package_name := some "app", imports := ["pkg.X"], defined_classes := [] }

/-- Call arguments of the `X.m(1.0)` invocation. -/
def c3CallArgs : List Cursor := get_call_args c3Cursor

/-- Object node of the document `X.m(1);`. -/
def c4Obj : JNode := .mk "identifier" "object" true 0 1 (0, 0) (0, 1) []

/-- Dot node of the document `X.m(1);`. -/
def c4Dot : JNode := .mk "." "" false 1 2 (0, 1) (0, 2) []

/-- Method name node of the document `X.m(1);`. -/
def c4Name : JNode := .mk "identifier" "name" true 2 3 (0, 2) (0, 3) []

/-- Opening parenthesis node of the document `X.m(1);`. -/
def c4LP : JNode := .mk "(" "" false 3 4 (0, 3) (0, 4) []

/-- Integer literal node `1` of the document `X.m(1);`. -/
def c4Lit : JNode := .mk "decimal_integer_literal" "" true 4 5 (0, 4) (0, 5) []

/-- Closing parenthesis node of the document `X.m(1);`. -/
def c4RP : JNode := .mk ")" "" false 5 6 (0, 5) (0, 6) []

/-- Argument list node of the document `X.m(1);`. -/
def c4Args : JNode := .mk "argument_list" "arguments" true 3 6 (0, 3) (0, 6) [c4LP, c4Lit, c4RP]

/-- Method invocation node of the document `X.m(1);`. -/
def c4Mi : JNode := .mk "method_invocation" "" true 0 6 (0, 0) (0, 6) [c4Obj, c4Dot, c4Name, c4Args]

/-- Semicolon node of the document `X.m(1);`. -/
def c4SemiN : JNode := .mk ";" "" false 6 7 (0, 6) (0, 7) []

/-- Expression statement node of the document `X.m(1);`. -/
def c4Es : JNode := .mk "expression_statement" "" true 0 7 (0, 0) (0, 7) [c4Mi, c4SemiN]

/-- Parse tree of the document `X.m(1);`. -/
def c4Tree : JNode := .mk "program" "" true 0 7 (0, 0) (0, 7) [c4Es]

/-- The document `X.m(1);`. -/
def c4Rope : String := "X.m(1);"

/-- Cursor at the method name of `X.m(1);`. -/
def c4Cursor : Cursor := { ancestors := [c4Mi, c4Es, c4Tree], node := c4Name }

/-- Indexed member `pkg.X.m(int)` matched positively by the `1` argument. -/
def c4Member : MemberLocation :=
  { name := "m", fqmn := "pkg.X.m", uri := "file:///lib/X.java", range := ⟨(2, 0), (2, 1)⟩,
    is_field := false, is_varargs := false, param_count := 1,
    param_types := [.Int], field_type := none }

/-- File facts importing `pkg.X`. -/
def c4Fi : FileInfo :=
  { package_name := some "app", imports := ["pkg.X"], defined_classes := [] }

/-- Call arguments of the `X.m(1)` invocation. -/
def c4CallArgs : List Cursor := get_call_args c4Cursor

/-- A decimal integer literal node whose text (in the documents `1L` and
`1l`) carries a long suffix. -/
def c6Lit : JNode := .mk "decimal_integer_literal" "" true 0 2 (0, 0) (0, 2) []

theorem JNode.size_pos (n : JNode) : 0 < n.size := by
  cases n; simp only [JNode.size]; omega

theorem size_le_of_mem {m : JNode} {l : List JNode} (h : m ∈ l) :
    m.size ≤ JNode.sizeList l := by
  induction l with
  | nil => cases h
  | cons b t ih =>
    rcases List.mem_cons.mp h with rfl | h2
    · simp only [JNode.sizeList]; omega
    · have := ih h2; simp only [JNode.sizeList]; omega

theorem size_lt_of_mem_children {m n : JNode} (h : m ∈ n.children) :
    m.size < n.size := by
  cases n with
  | mk k f b s e rs re cs =>
    simp only [JNode.children] at h
    have := size_le_of_mem h
    simp only [JNode.size]
    omega

theorem mem_of_head?_eq {α : Type} {l : List α} {a : α} (h : l.head? = some a) : a ∈ l := by
  cases l with
  | nil => simp at h
  | cons b t => simp only [List.head?_cons, Option.some.injEq] at h; simp [h]

theorem size_namedChild0 {n m : JNode} (h : n.namedChild0 = some m) :
    m.size < n.size := by
  have hm : m ∈ n.namedChildren := mem_of_head?_eq h
  exact size_lt_of_mem_children (List.mem_of_mem_filter hm)

theorem sizeList_append (l r : List JNode) :
    JNode.sizeList (l ++ r) = JNode.sizeList l + JNode.sizeList r := by
  induction l with
  | nil => simp [JNode.sizeList]
  | cons a t ih =>
    simp only [List.cons_append, JNode.sizeList, List.append_eq] at ih ⊢
    omega

theorem sizeList_reverse (l : List JNode) :
    JNode.sizeList l.reverse = JNode.sizeList l := by
  induction l with
  | nil => rfl
  | cons a t ih =>
    simp only [List.reverse_cons, sizeList_append, ih, JNode.sizeList]
    omega

theorem stack_size_step (n : JNode) (r : List JNode) :
    JNode.sizeList (n.children.reverse ++ r) < JNode.sizeList (n :: r) := by
  simp only [sizeList_append, sizeList_reverse, JNode.sizeList]
  have h2 : JNode.sizeList n.children < n.size := by
    cases n; simp only [JNode.size, JNode.children]; omega
  omega
/-- C5: a member passes the arity filter of the resolver exactly when the
argument count equals the parameter count for a non varargs member, and is
at least the parameter count minus one for a varargs member. -/
theorem C5_arity_filter (member : MemberLocation) (arg_count : Nat) :
    match_member_arity member arg_count = true ↔
      (if member.is_varargs = true then
        (arg_count : Int) ≥ (member.param_count : Int) - 1
       else arg_count = member.param_count) := by
  unfold match_member_arity
  by_cases hv : member.is_varargs = true <;> simp [hv] <;> omega

theorem calculate_score_self (T : InferredType) : calculate_score T T = 100 := by
  simp [calculate_score]

theorem calculate_score_le (T U : InferredType) : calculate_score T U ≤ 100 := by
  unfold calculate_score
  by_cases h : T = U
  · simp [h]
  · rw [if_neg h]
    cases T <;> cases U <;> first | omega | (split_ifs <;> omega) | simp_all

-- score_member_go rejection
theorem score_member_go_neg (rope : String) (member : MemberLocation) :
    ∀ (args : List Cursor) (i0 : Nat) (total : Int) (j : Nat) (a : Cursor)
      (pt : InferredType),
      args[j]? = some a →
      member.param_types[varargs_param_idx member (i0 + j)]? = some pt →
      calculate_score (TypeSolver.infer rope a) pt < 0 →
      score_member_go rope member i0 args total = none := by
  intro args
  induction args with
  | nil => intro i0 total j a pt ha; simp at ha
  | cons b rest ih =>
    intro i0 total j a pt ha hpt hneg
    rw [score_member_go]
    by_cases hlt : varargs_param_idx member i0 < member.param_types.length
    · rw [dif_pos hlt]
      cases j with
      | zero =>
        simp only [List.getElem?_cons_zero, Option.some.injEq] at ha
        subst ha
        have hidx : i0 + 0 = i0 := by omega
        rw [hidx] at hpt
        have : member.param_types.get ⟨varargs_param_idx member i0, hlt⟩ = pt := by
          have := List.getElem?_eq_getElem hlt
          rw [List.get_eq_getElem]
          rw [this] at hpt
          exact Option.some.inj hpt
        rw [this]
        rw [if_pos hneg]
      | succ k =>
        simp only [List.getElem?_cons_succ] at ha
        dsimp only
        by_cases hs : calculate_score (TypeSolver.infer rope b)
            (member.param_types.get ⟨varargs_param_idx member i0, hlt⟩) < 0
        · rw [if_pos hs]
        · rw [if_neg hs]
          apply ih (i0 + 1) _ k a pt ha _ hneg
          have heq : i0 + 1 + k = i0 + (k + 1) := by omega
          rw [heq]
          exact hpt
    · rw [dif_neg hlt]

theorem mem_insertByKeyLt {α κ : Type} (lt : κ → κ → Bool) (key : α → κ) (a x : α) :
    ∀ l : List α, x ∈ insertByKeyLt lt key a l ↔ x = a ∨ x ∈ l := by
  intro l
  induction l with
  | nil => simp [insertByKeyLt]
  | cons y t ih =>
    simp only [insertByKeyLt]
    split
    · simp [List.mem_cons]
    · simp only [List.mem_cons, ih]
      tauto

theorem mem_stableSort_aux {α κ : Type} (lt : κ → κ → Bool) (key : α → κ) (x : α) :
    ∀ (l acc : List α),
      (x ∈ l.foldl (fun acc y => insertByKeyLt lt key y acc) acc ↔ x ∈ acc ∨ x ∈ l) := by
  intro l
  induction l with
  | nil => simp
  | cons y t ih =>
    intro acc
    simp only [List.foldl_cons, ih, mem_insertByKeyLt, List.mem_cons]
    tauto

theorem mem_stableSortByKey {α κ : Type} (lt : κ → κ → Bool) (key : α → κ) (x : α)
    (l : List α) : x ∈ stableSortByKey lt key l ↔ x ∈ l := by
  unfold stableSortByKey
  rw [mem_stableSort_aux]
  simp

theorem score_member_neg (rope : String) (member : MemberLocation) (call_args : List Cursor)
    (index : GlobalIndex) (uri : String) (j : Nat) (a : Cursor) (pt : InferredType)
    (ha : call_args[j]? = some a)
    (hpt : member.param_types[varargs_param_idx member j]? = some pt)
    (hneg : calculate_score (TypeSolver.infer rope a) pt < 0) :
    score_member member call_args rope index uri = none := by
  unfold score_member
  have hne : member.param_types.isEmpty = false := by
    cases h : member.param_types with
    | nil => rw [h] at hpt; simp [varargs_param_idx, h] at hpt
    | cons p t => simp [h]
  rw [hne]
  simp only [Bool.false_eq_true, if_false]
  exact score_member_go_neg rope member call_args 0 0 j a pt ha (by simpa using hpt) hneg

theorem match_member_some_mem (c : Cursor) (rope : String) (members : List MemberLocation)
    (fi : FileInfo) (index : GlobalIndex) (qualifier : Option String)
    (call_args : List Cursor) (current_uri : String) (hint : Bool) (loc : Location)
    (hc : member_candidates members (mm_fqcn c rope qualifier index fi)
        (mm_prefer_method c rope hint) (count_args c) ≠ [])
    (h : match_member c rope members fi index qualifier call_args current_uri hint =
        some loc) :
    ∃ m, m ∈ member_candidates members (mm_fqcn c rope qualifier index fi)
        (mm_prefer_method c rope hint) (count_args c) ∧
      score_member m call_args rope index current_uri ≠ none ∧
      loc = { uri := m.uri, range := m.range } := by
  unfold match_member at h
  dsimp only at h
  split at h
  · exact absurd h (by simp)
  · rw [if_neg (by simpa [List.isEmpty_iff] using hc)] at h
    split at h
    · exact absurd h (by simp)
    · rw [Option.map_eq_some'] at h
      obtain ⟨p, hp, hloc⟩ := h
      have hmem : p ∈ stableSortByKey lex6Lt
          (scored_member_key
            ((!mm_prefer_method c rope hint) && call_args.isEmpty)
            (mm_prefer_method c rope hint) (count_args c))
          ((member_candidates members (mm_fqcn c rope qualifier index fi)
            (mm_prefer_method c rope hint) (count_args c)).filterMap (fun m =>
              (score_member m call_args rope index current_uri).map (fun s => (m, s)))) :=
        mem_of_head?_eq hp
      rw [mem_stableSortByKey] at hmem
      rw [List.mem_filterMap] at hmem
      obtain ⟨m, hm, hsm⟩ := hmem
      rw [Option.map_eq_some'] at hsm
      obtain ⟨s, hs, hps⟩ := hsm
      refine ⟨m, hm, by simp [hs], ?_⟩
      rw [← hloc, ← hps]


/-- C3 (amended): when the class, usage and arity filter of member
resolution admits candidates but scoring rejects every one of them, the
resolver returns no result; the fallback to the first member in
(varargs, URI priority, parameter count) order happens only when the filter
itself admits no candidate, and it does not re-apply the arity filter. -/
theorem C3_scoring_fallback_amended (c : Cursor) (rope : String)
    (members : List MemberLocation) (fi : FileInfo) (index : GlobalIndex)
    (qualifier : Option String) (call_args : List Cursor) (current_uri : String)
    (hint : Bool) :
    (member_candidates members (mm_fqcn c rope qualifier index fi)
        (mm_prefer_method c rope hint) (count_args c) ≠ [] →
      (∀ m ∈ member_candidates members (mm_fqcn c rope qualifier index fi)
          (mm_prefer_method c rope hint) (count_args c),
          score_member m call_args rope index current_uri = none) →
      match_member c rope members fi index qualifier call_args current_uri hint = none) ∧
    (((mm_qualifier c rope qualifier).isEmpty && !hint) = false →
      member_candidates members (mm_fqcn c rope qualifier index fi)
        (mm_prefer_method c rope hint) (count_args c) = [] →
      match_member c rope members fi index qualifier call_args current_uri hint =
        (stableSortByKey lex3Lt (fun m =>
          (boolInt m.is_varargs, priority_for_uri m.uri m.fqmn, (m.param_count : Int)))
          members).head?.map (fun m => ({ uri := m.uri, range := m.range } : Location))) := by
  constructor
  · intro hne hall
    unfold match_member
    dsimp only
    split
    · rfl
    · rw [if_neg (fun hx => hne (List.isEmpty_iff.mp hx))]
      have hsc : (member_candidates members (mm_fqcn c rope qualifier index fi)
          (mm_prefer_method c rope hint) (count_args c)).filterMap (fun m =>
            (score_member m call_args rope index current_uri).map (fun s => (m, s))) = [] := by
        rw [List.filterMap_eq_nil]
        intro m hm
        rw [hall m hm]
        rfl
      rw [hsc]
      simp
  · intro hg hc
    unfold match_member
    dsimp only
    rw [if_neg (by rw [hg]; simp)]
    rw [if_pos (by rw [hc]; rfl)]

theorem get_node_at_pos_some {tree : JNode} {rope : String} {pos : Position} {c : Cursor}
    {t : String} (h : get_node_at_pos tree rope pos = some (c, t)) :
    (c.node.kind = "identifier" ∨ c.node.kind = "type_identifier") ∧
      c = descendant_for_byte tree (lineToChar rope pos.line + pos.character) := by
  unfold get_node_at_pos at h
  dsimp only at h
  split at h
  · rename_i hcond
    simp only [Option.some.injEq, Prod.mk.injEq] at h
    obtain ⟨hc, _⟩ := h
    subst hc
    exact ⟨hcond, rfl⟩
  · exact absurd h (by simp)

/-- C1 (amended): for a goto definition request whose identifier has no
local, parameter or field resolution, class lookup tries the explicit
imports first, then the same package, then the same file, and `java.lang`
last; in particular when both a same-file class and an explicitly imported
class match the target short name, the resolver returns the location of
the imported class. -/
theorem C1_lookup_order_amended (tree : JNode) (rope : String) (pos : Position)
    (index : GlobalIndex) (current_uri : String) (c : Cursor) (target : String)
    (fi : FileInfo)
    (h1 : get_node_at_pos tree rope pos = some (c, target))
    (h2 : find_local_variable c rope target = none)
    (h3 : resolve_qualifier c rope = none)
    (h4 : find_definition_in_file c target rope (get_call_args c) index current_uri = none)
    (h5 : file_info index current_uri = some fi) :
    (∀ loc, match_imported_symbol (classes_by_short_name index target) fi.imports target =
        some loc →
      goto_definition tree rope pos index current_uri =
        some { uri := loc.uri, range := loc.range }) ∧
    (match_imported_symbol (classes_by_short_name index target) fi.imports target = none →
      ∀ loc, fi.package_name.bind (fun pkg =>
          match_same_package (classes_by_short_name index target) pkg target) = some loc →
      goto_definition tree rope pos index current_uri =
        some { uri := loc.uri, range := loc.range }) ∧
    (match_imported_symbol (classes_by_short_name index target) fi.imports target = none →
      fi.package_name.bind (fun pkg =>
          match_same_package (classes_by_short_name index target) pkg target) = none →
      ∀ loc, match_same_file (classes_by_short_name index target) current_uri = some loc →
      goto_definition tree rope pos index current_uri =
        some { uri := loc.uri, range := loc.range }) ∧
    (match_imported_symbol (classes_by_short_name index target) fi.imports target = none →
      fi.package_name.bind (fun pkg =>
          match_same_package (classes_by_short_name index target) pkg target) = none →
      match_same_file (classes_by_short_name index target) current_uri = none →
      (c.node.kind == "field_identifier" ||
        (match c.parent with
         | some p => p.kind == "method_invocation" || p.kind == "field_access"
         | none => false)) = false →
      ∀ loc, match_java_lang (classes_by_short_name index target) = some loc →
      goto_definition tree rope pos index current_uri =
        some { uri := loc.uri, range := loc.range }) := by
  obtain ⟨hkind, _⟩ := get_node_at_pos_some h1
  have hunfold : goto_definition tree rope pos index current_uri =
      (match match_imported_symbol (classes_by_short_name index target) fi.imports target with
       | some loc => some { uri := loc.uri, range := loc.range }
       | none =>
         match fi.package_name.bind (fun pkg =>
             match_same_package (classes_by_short_name index target) pkg target) with
         | some loc => some { uri := loc.uri, range := loc.range }
         | none =>
           match match_same_file (classes_by_short_name index target) current_uri with
           | some loc => some { uri := loc.uri, range := loc.range }
           | none =>
             match (if (c.node.kind == "field_identifier" ||
                 (match c.parent with
                  | some p => p.kind == "method_invocation" || p.kind == "field_access"
                  | none => false)) then
                 match_member c rope (members_by_name index target) fi index
                   none (get_call_args c) current_uri
                   (match c.parent with
                    | some p => p.kind == "method_invocation"
                    | none => false)
               else none) with
             | some loc => some loc
             | none =>
               match match_java_lang (classes_by_short_name index target) with
               | some loc => some { uri := loc.uri, range := loc.range }
               | none => none) := by
    unfold goto_definition
    rw [h1]
    dsimp only
    rw [h2]
    rw [if_neg (by rcases hkind with hk | hk <;> simp [hk])]
    rw [h3]
    dsimp only
    rw [h4]
    simp only [Option.map_none']
    rw [h5]
    rfl
  refine ⟨?_, ?_, ?_, ?_⟩
  · intro loc himp
    rw [hunfold, himp]
  · intro himp loc hpkg
    rw [hunfold, himp, hpkg]
  · intro himp hpkg loc hsf
    rw [hunfold, himp, hpkg, hsf]
  · intro himp hpkg hsf hallow loc hjl
    rw [hunfold, himp, hpkg, hsf, hallow, hjl]
    rfl

theorem find?_map_replace (u : String) (d : FileIndexData) :
    ∀ idx : GlobalIndex, (idx.find? (fun p => p.1 = u)).isSome →
      (idx.map (fun p => if p.1 = u then (u, d) else p)).find? (fun p => p.1 = u) =
        some (u, d) := by
  intro idx
  induction idx with
  | nil => intro h; simp at h
  | cons a t ih =>
    intro h
    by_cases ha : a.1 = u
    · simp [List.find?_cons, ha]
    · simp only [List.map_cons, if_neg ha]
      rw [List.find?_cons_of_neg _ (by simp [ha])]
      apply ih
      rw [List.find?_cons_of_neg _ (by simp [ha])] at h
      exact h

theorem find?_append_absent (u : String) (d : FileIndexData) :
    ∀ idx : GlobalIndex, idx.find? (fun p => p.1 = u) = none →
      (idx ++ [(u, d)]).find? (fun p => p.1 = u) = some (u, d) := by
  intro idx hnone
  rw [List.find?_append, hnone]
  simp

theorem upsert_upsert (idx : GlobalIndex) (u : String) (d1 d2 : FileIndexData) :
    upsert_file (upsert_file idx u d1) u d2 = upsert_file idx u d2 := by
  unfold upsert_file
  cases hfind : idx.find? (fun p => p.1 = u) with
  | some p =>
    rw [find?_map_replace u d1 idx (by simp [hfind])]
    simp only [List.map_map]
    apply List.map_congr_left
    intro q _
    by_cases hq : q.1 = u <;> simp [Function.comp, hq]
  | none =>
    rw [find?_append_absent u d1 idx hfind]
    simp only [List.map_append, List.map_cons, List.map_nil, if_pos rfl]
    have : idx.map (fun p => if p.1 = u then (u, d2) else p) = idx := by
      have hall := List.find?_eq_none.mp hfind
      conv_rhs => rw [← List.map_id idx]
      apply List.map_congr_left
      intro q hq
      have : ¬ q.1 = u := by simpa using hall q hq
      simp [this]
    rw [this]
    simp

theorem upsert_find (idx : GlobalIndex) (u : String) (d : FileIndexData) :
    (upsert_file idx u d).find? (fun p => p.1 = u) = some (u, d) := by
  unfold upsert_file
  cases hfind : idx.find? (fun p => p.1 = u) with
  | some p => exact find?_map_replace u d idx (by simp [hfind])
  | none => exact find?_append_absent u d idx hfind

theorem data_mk (l : List Char) : (String.mk l).data = l := rfl

theorem except_bind_ok {ε α β : Type} (a : α) (f : α → Except ε β) :
    (Except.ok a : Except ε α) >>= f = f a := rfl

theorem applyChange_skip (doc : DocState) (change : ContentChange) (r : ChangeRange)
    (h1 : change.range = some r)
    (h2 : r.start.line ≥ lenLines doc.text ∨ r.stop.line ≥ lenLines doc.text) :
    applyChange doc change = .ok doc := by
  unfold applyChange
  rw [h1]
  dsimp only
  rw [if_pos h2]

theorem did_change_skip_continue (doc : DocState) (change : ContentChange)
    (r : ChangeRange) (rest : List ContentChange)
    (h1 : change.range = some r)
    (h2 : r.start.line ≥ lenLines doc.text ∨ r.stop.line ≥ lenLines doc.text) :
    did_change_changes doc (change :: rest) = did_change_changes doc rest := by
  unfold did_change_changes
  rw [List.foldlM_cons, applyChange_skip doc change r h1 h2]
  rfl

set_option maxHeartbeats 1000000 in
theorem inferFuel_congr (rope : String) : ∀ (fuel : Nat) (c : Cursor) (f2 : Nat),
    c.node.size ≤ fuel → c.node.size ≤ f2 →
    inferFuel rope fuel c = inferFuel rope f2 c := by
  intro fuel
  induction fuel with
  | zero => intro c f2 h1 _; have := JNode.size_pos c.node; omega
  | succ fuel ih =>
    intro c f2 h1 h2
    cases f2 with
    | zero => have := JNode.size_pos c.node; omega
    | succ g =>
      simp only [inferFuel]
      split_ifs <;> try rfl
      cases hin : c.node.namedChild0 with
      | none => rfl
      | some inner =>
        have hlt := size_namedChild0 hin
        apply ih { ancestors := c.node :: c.ancestors, node := inner } g
        · show inner.size ≤ fuel
          omega
        · show inner.size ≤ g
          omega

set_option maxHeartbeats 1000000 in
theorem inferFuel_isSome (rope : String) : ∀ (fuel : Nat) (c : Cursor),
    c.node.size ≤ fuel → (inferFuel rope fuel c).isSome := by
  intro fuel
  induction fuel with
  | zero => intro c h1; have := JNode.size_pos c.node; omega
  | succ fuel ih =>
    intro c h1
    simp only [inferFuel]
    split_ifs <;>
      first
        | simp
        | (cases hx : c.node.childByField "type" <;> simp)
        | (cases hin : c.node.namedChild0 with
           | none => simp
           | some inner =>
             have hlt := size_namedChild0 hin
             exact ih { ancestors := c.node :: c.ancestors, node := inner }
               (by show inner.size ≤ fuel; omega))

theorem inferFuel_eq_infer (rope : String) (c : Cursor) (fuel : Nat)
    (h : c.node.size ≤ fuel) :
    inferFuel rope fuel c = some (TypeSolver.infer rope c) := by
  have hs := inferFuel_isSome rope c.node.size c (le_refl _)
  obtain ⟨v, hv⟩ := Option.isSome_iff_exists.mp hs
  unfold TypeSolver.infer
  rw [inferFuel_congr rope fuel c c.node.size h (le_refl _), hv]
  rfl

theorem infer_method_invocation (rope : String) (c : Cursor)
    (h : c.node.kind = "method_invocation") :
    TypeSolver.infer rope c = resolve_method_return_type rope c := by
  unfold TypeSolver.infer
  obtain ⟨k, hk⟩ : ∃ k, c.node.size = k + 1 :=
    ⟨c.node.size - 1, by have := JNode.size_pos c.node; omega⟩
  rw [hk]
  simp only [inferFuel, h]
  rw [if_neg (by decide), if_neg (by decide), if_neg (by decide), if_neg (by decide),
    if_neg (by decide), if_pos (by decide)]
  rfl

theorem inferFuel_one_method (rope : String) (c : Cursor)
    (h : c.node.kind = "method_invocation") :
    inferFuel rope 1 c = some (resolve_method_return_type rope c) := by
  simp only [inferFuel, h]
  rw [if_neg (by decide), if_neg (by decide), if_neg (by decide), if_neg (by decide),
    if_neg (by decide), if_pos (by decide)]

/-- C10 (amended): an incremental change whose lines are in range avoids a
panic only when the client supplied character offsets keep the computed
character indices ordered and within the rope length; under those bounds
every rope operation of the handler succeeds. -/
theorem C10_bounds_amended (doc : DocState) (change : ContentChange) (r : ChangeRange)
    (h1 : change.range = some r)
    (hl : ¬(r.start.line ≥ lenLines doc.text ∨ r.stop.line ≥ lenLines doc.text))
    (hse : lineToChar doc.text r.start.line + r.start.character ≤
        lineToChar doc.text r.stop.line + r.stop.character)
    (he : lineToChar doc.text r.stop.line + r.stop.character ≤ lenChars doc.text) :
    ∃ d2, applyChange doc change = Except.ok d2 := by
  unfold applyChange
  rw [h1]
  dsimp only
  rw [if_neg hl]
  unfold lenChars at he
  set s := lineToChar doc.text r.start.line + r.start.character with hs
  set e := lineToChar doc.text r.stop.line + r.stop.character with heq
  have hc1 : charToByte doc.text s = .ok s := by
    unfold charToByte; rw [if_pos (by omega)]
  have hc2 : charToByte doc.text e = .ok e := by
    unfold charToByte; rw [if_pos (by omega)]
  have hc3 : ropeRemove doc.text s e =
      .ok (String.mk (doc.text.data.take s ++ doc.text.data.drop e)) := by
    unfold ropeRemove; rw [if_pos (by constructor <;> omega)]
  set t1 := String.mk (doc.text.data.take s ++ doc.text.data.drop e) with ht1
  have hlen1 : t1.data.length = s + (doc.text.data.length - e) := by
    rw [ht1, data_mk, List.length_append, List.length_take, List.length_drop]
    omega
  have hc4 : ropeInsert t1 s change.text =
      .ok (String.mk (t1.data.take s ++ change.text.data ++ t1.data.drop s)) := by
    unfold ropeInsert; rw [if_pos (by omega)]
  set t2 := String.mk (t1.data.take s ++ change.text.data ++ t1.data.drop s) with ht2
  have hlen2 : t2.data.length = s + change.text.data.length + (doc.text.data.length - e) := by
    rw [ht2, data_mk, List.length_append, List.length_append, List.length_take,
      List.length_drop]
    omega
  have hc5 : byteToChar t2 (s + change.text.data.length) =
      .ok (s + change.text.data.length) := by
    unfold byteToChar; rw [if_pos (by omega)]
  have hc6 : charToLine t2 (s + change.text.data.length) =
      .ok ((t2.data.take (s + change.text.data.length)).count '\n') := by
    unfold charToLine; rw [if_pos (by omega)]
  rw [hc1, except_bind_ok, hc2, except_bind_ok, hc3, except_bind_ok, hc4, except_bind_ok,
    hc5, except_bind_ok, hc6, except_bind_ok]
  exact ⟨_, rfl⟩

/-- C1 (counterexample): with a class `HashMap` declared in the current file
and an explicitly imported `java.util.HashMap` both indexed, goto definition
on the `HashMap` type identifier returns the imported library location, not
the same-file class that a same-file class match would return; so same-file
class lookup is not performed before explicit-import lookup. -/
theorem C1_counterexample :
    goto_definition c1Tree c1Rope ⟨0, 0⟩ c1Index "file:///cur/Main.java" =
      some { uri := "file:///lib/HashMap.java", range := c1LibRange } ∧
    match_same_file (classes_by_short_name c1Index "HashMap") "file:///cur/Main.java" =
      some { fqcn := "pkg.HashMap", uri := "file:///cur/Main.java", range := c1CurRange } ∧
    ("file:///lib/HashMap.java" : String) ≠ "file:///cur/Main.java" :=
  ⟨by decide, by decide, by decide⟩

/-- Witness for the amended C1 theorem at the concrete `HashMap x;`
instance. -/
theorem C1_lookup_order_witness :
    goto_definition c1Tree c1Rope ⟨0, 0⟩ c1Index "file:///cur/Main.java" =
      some { uri := "file:///lib/HashMap.java", range := c1LibRange } :=
  (C1_lookup_order_amended c1Tree c1Rope ⟨0, 0⟩ c1Index "file:///cur/Main.java"
      c1Cursor "HashMap" c1Fi rfl rfl rfl rfl rfl).1
    { fqcn := "java.util.HashMap", uri := "file:///lib/HashMap.java", range := c1LibRange }
    (by decide)

/-- C2: node selection takes the smallest descendant covering the cursor
byte, but `get_node_at_pos` accepts only the kinds `identifier` and
`type_identifier`: a `field_identifier` node (here `value` in `Data.value;`,
the field versus method scenario of the repository test suite) is rejected,
so goto definition returns no result, contradicting the claim, the spec, the
later kind check in `lang/java.rs`, and the test. -/
theorem C2_field_identifier_rejected :
    (descendant_for_byte c2Tree 5).node.kind = "field_identifier" ∧
    get_node_at_pos c2Tree c2Rope ⟨0, 5⟩ = none ∧
    goto_definition c2Tree c2Rope ⟨0, 5⟩ [] "file:///cur/Data.java" = none :=
  ⟨rfl, rfl, rfl⟩

/-- C3 (counterexample): the single member `pkg.X.m(int)` passes the class,
usage and arity filters for the call `X.m(1.0)`, scoring rejects it (a
`double` argument against an `int` parameter scores negative), and the
resolver returns no result instead of falling back to the arity filtered
first member. -/
theorem C3_counterexample :
    match_member c3Cursor c3Rope [c3Member] c3Fi [] (some "X") c3CallArgs
      "file:///cur/A.java" true = none ∧
    member_candidates [c3Member] (mm_fqcn c3Cursor c3Rope (some "X") [] c3Fi)
      (mm_prefer_method c3Cursor c3Rope true) (count_args c3Cursor) = [c3Member] :=
  ⟨by decide, by decide⟩

/-- Witness for the amended C3 theorem: the scoring-rejects-all branch at the
`X.m(1.0)` instance, and the empty-candidates fallback branch with no
members. -/
theorem C3_scoring_fallback_witness :
    match_member c3Cursor c3Rope [c3Member] c3Fi [] (some "X") c3CallArgs
      "file:///cur/A.java" true = none ∧
    match_member c3Cursor c3Rope [] c3Fi [] (some "X") c3CallArgs
      "file:///cur/A.java" true =
      (stableSortByKey lex3Lt (fun m =>
        (boolInt m.is_varargs, priority_for_uri m.uri m.fqmn, (m.param_count : Int)))
        ([] : List MemberLocation)).head?.map
          (fun m => ({ uri := m.uri, range := m.range } : Location)) :=
  ⟨(C3_scoring_fallback_amended c3Cursor c3Rope [c3Member] c3Fi [] (some "X") c3CallArgs
      "file:///cur/A.java" true).1 (by decide) (by decide),
   (C3_scoring_fallback_amended c3Cursor c3Rope [] c3Fi [] (some "X") c3CallArgs
      "file:///cur/A.java" true).2 (by decide) (by decide)⟩

/-- C4: the overload score of a type against itself is 100 and is maximal,
and during member scoring any argument and parameter pair with a negative
score causes the candidate to be rejected entirely: its `score_member` is
`none`, and any location returned by `match_member` when the candidate
filter is non empty comes from a candidate whose `score_member` succeeded. -/
theorem C4_overload_scoring :
    (∀ T, calculate_score T T = 100) ∧
    (∀ T U, calculate_score T U ≤ 100) ∧
    (∀ (rope : String) (member : MemberLocation) (call_args : List Cursor)
        (index : GlobalIndex) (uri : String) (j : Nat) (a : Cursor) (pt : InferredType),
      call_args[j]? = some a →
      member.param_types[varargs_param_idx member j]? = some pt →
      calculate_score (TypeSolver.infer rope a) pt < 0 →
      score_member member call_args rope index uri = none) ∧
    (∀ (c : Cursor) (rope : String) (members : List MemberLocation) (fi : FileInfo)
        (index : GlobalIndex) (qualifier : Option String) (call_args : List Cursor)
        (current_uri : String) (hint : Bool) (loc : Location),
      member_candidates members (mm_fqcn c rope qualifier index fi)
        (mm_prefer_method c rope hint) (count_args c) ≠ [] →
      match_member c rope members fi index qualifier call_args current_uri hint =
        some loc →
      ∃ m, m ∈ member_candidates members (mm_fqcn c rope qualifier index fi)
          (mm_prefer_method c rope hint) (count_args c) ∧
        score_member m call_args rope index current_uri ≠ none ∧
        loc = { uri := m.uri, range := m.range }) :=
  ⟨calculate_score_self, calculate_score_le,
   fun rope member call_args index uri j a pt ha hpt hneg =>
     score_member_neg rope member call_args index uri j a pt ha hpt hneg,
   fun c rope members fi index qualifier call_args current_uri hint loc hc h =>
     match_member_some_mem c rope members fi index qualifier call_args current_uri hint
       loc hc h⟩

/-- Witness for C4 at concrete inputs: equal types score 100, a widening
pair scores at most 100, the negatively scoring `X.m(1.0)` candidate is
rejected, and the location returned for `X.m(1)` comes from a positively
scored candidate. -/
theorem C4_overload_scoring_witness :
    calculate_score .Int .Int = 100 ∧
    calculate_score .Double .Int ≤ 100 ∧
    score_member c3Member c3CallArgs c3Rope [] "file:///cur/A.java" = none ∧
    (∃ m, m ∈ member_candidates [c4Member] (mm_fqcn c4Cursor c4Rope (some "X") [] c4Fi)
        (mm_prefer_method c4Cursor c4Rope true) (count_args c4Cursor) ∧
      score_member m c4CallArgs c4Rope [] "file:///cur/A.java" ≠ none ∧
      ({ uri := "file:///lib/X.java", range := ⟨(2, 0), (2, 1)⟩ } : Location) =
        { uri := m.uri, range := m.range }) :=
  ⟨C4_overload_scoring.1 .Int,
   C4_overload_scoring.2.1 .Double .Int,
   C4_overload_scoring.2.2.1 c3Rope c3Member c3CallArgs [] "file:///cur/A.java" 0
     c3ArgCursor .Int rfl rfl (by decide),
   C4_overload_scoring.2.2.2 c4Cursor c4Rope [c4Member] c4Fi [] (some "X") c4CallArgs
     "file:///cur/A.java" true
     { uri := "file:///lib/X.java", range := ⟨(2, 0), (2, 1)⟩ } (by decide) (by decide)⟩

/-- C6: `TypeSolver::infer`, the solver used for overload scoring, returns
`Int` for every decimal integer literal, including those with a trailing L
or l, while `infer_expr_type` in `ast.rs` (and the spec) map such literals
to `Long`. -/
theorem C6_integer_literal_typing :
    TypeSolver.infer "1L" { ancestors := [], node := c6Lit } = .Int ∧
    TypeSolver.infer "1l" { ancestors := [], node := c6Lit } = .Int ∧
    infer_expr_type c6Lit "1L" = .Long ∧
    infer_expr_type c6Lit "1l" = .Long :=
  ⟨rfl, rfl, rfl, rfl⟩

/-- C7: upserting a file twice under the same URI leaves the index exactly as
if only the second upsert had happened: the second call wholly replaces the
package, imports, classes and members observable under that URI through
`file_info`, `classes_by_short_name` and `members_by_name`. -/
theorem C7_upsert_replaces (idx : GlobalIndex) (u : String) (d1 d2 : FileIndexData) :
    upsert_file (upsert_file idx u d1) u d2 = upsert_file idx u d2 ∧
    file_info (upsert_file (upsert_file idx u d1) u d2) u =
      some { package_name := d2.package_name, imports := d2.imports,
             defined_classes := d2.classes.map (fun c => c.short_name) } ∧
    (∀ name, classes_by_short_name (upsert_file (upsert_file idx u d1) u d2) name =
      classes_by_short_name (upsert_file idx u d2) name) ∧
    (∀ name, members_by_name (upsert_file (upsert_file idx u d1) u d2) name =
      members_by_name (upsert_file idx u d2) name) := by
  refine ⟨upsert_upsert idx u d1 d2, ?_, fun name => by rw [upsert_upsert],
    fun name => by rw [upsert_upsert]⟩
  rw [upsert_upsert]
  unfold file_info
  rw [upsert_find]
  rfl

/-- C8: an incremental change whose start or end line is at or past the
current line count is skipped, leaving the rope and the stored tree exactly
unchanged, and the remaining changes of the notification are still
processed. -/
theorem C8_out_of_range_skipped (doc : DocState) (change : ContentChange)
    (r : ChangeRange) (rest : List ContentChange)
    (h1 : change.range = some r)
    (h2 : r.start.line ≥ lenLines doc.text ∨ r.stop.line ≥ lenLines doc.text) :
    applyChange doc change = .ok doc ∧
      did_change_changes doc (change :: rest) = did_change_changes doc rest :=
  ⟨applyChange_skip doc change r h1 h2, did_change_skip_continue doc change r rest h1 h2⟩

/-- Witness for C8: a change targeting line 5 of the two character document
`ab`. -/
theorem C8_out_of_range_skipped_witness :
    applyChange ⟨"ab", .parsed "ab"⟩ ⟨some ⟨⟨5, 0⟩, ⟨5, 0⟩⟩, "x"⟩ =
      .ok ⟨"ab", .parsed "ab"⟩ ∧
    did_change_changes ⟨"ab", .parsed "ab"⟩ [⟨some ⟨⟨5, 0⟩, ⟨5, 0⟩⟩, "x"⟩] =
      did_change_changes ⟨"ab", .parsed "ab"⟩ [] :=
  C8_out_of_range_skipped ⟨"ab", .parsed "ab"⟩ ⟨some ⟨⟨5, 0⟩, ⟨5, 0⟩⟩, "x"⟩
    ⟨⟨5, 0⟩, ⟨5, 0⟩⟩ [] rfl (by decide)

/-- C9: the type solver terminates on every finite syntax tree: its method
invocation case is computed by the non recursive enclosing class lookup
`resolve_method_return_type` (one unit of fuel suffices, so it never
recurses into the argument nodes), and fuel equal to the node size suffices
for the whole solver, whose only self call descends into a strict
subnode. -/
theorem C9_infer_terminates (rope : String) :
    (∀ c : Cursor, c.node.kind = "method_invocation" →
      TypeSolver.infer rope c = resolve_method_return_type rope c) ∧
    (∀ c : Cursor, c.node.kind = "method_invocation" →
      inferFuel rope 1 c = some (resolve_method_return_type rope c)) ∧
    (∀ (c : Cursor) (fuel : Nat), c.node.size ≤ fuel →
      inferFuel rope fuel c = some (TypeSolver.infer rope c)) :=
  ⟨fun c h => infer_method_invocation rope c h,
   fun c h => inferFuel_one_method rope c h,
   fun c fuel h => inferFuel_eq_infer rope c fuel h⟩

/-- Witness for C9 at the `X.m(1.0)` invocation node and an integer
literal. -/
theorem C9_infer_terminates_witness :
    TypeSolver.infer c3Rope { ancestors := [c3Es, c3Tree], node := c3Mi } =
      resolve_method_return_type c3Rope { ancestors := [c3Es, c3Tree], node := c3Mi } ∧
    inferFuel c3Rope 1 { ancestors := [c3Es, c3Tree], node := c3Mi } =
      some (resolve_method_return_type c3Rope { ancestors := [c3Es, c3Tree], node := c3Mi }) ∧
    inferFuel "1L" c6Lit.size { ancestors := [], node := c6Lit } =
      some (TypeSolver.infer "1L" { ancestors := [], node := c6Lit }) :=
  ⟨(C9_infer_terminates c3Rope).1 { ancestors := [c3Es, c3Tree], node := c3Mi } rfl,
   (C9_infer_terminates c3Rope).2.1 { ancestors := [c3Es, c3Tree], node := c3Mi } rfl,
   (C9_infer_terminates "1L").2.2 { ancestors := [], node := c6Lit } c6Lit.size
     (Nat.le_refl _)⟩

/-- C10 (counterexample): on the two character document `ab`, an in-line
change whose character offset is 5 passes the line check but sends
`char_to_byte` out of bounds, so the handler panics instead of staying
within the rope bounds. -/
theorem C10_counterexample :
    applyChange ⟨"ab", .parsed "ab"⟩ ⟨some ⟨⟨0, 5⟩, ⟨0, 5⟩⟩, ""⟩ =
      .error "char_to_byte out of bounds" := rfl

/-- Witness for the amended C10 theorem: an in-bounds single character
replacement on the document `ab`. -/
theorem C10_bounds_witness :
    ∃ d2, applyChange ⟨"ab", .parsed "ab"⟩ ⟨some ⟨⟨0, 0⟩, ⟨0, 1⟩⟩, "x"⟩ = .ok d2 :=
  C10_bounds_amended ⟨"ab", .parsed "ab"⟩ ⟨some ⟨⟨0, 0⟩, ⟨0, 1⟩⟩, "x"⟩
    ⟨⟨0, 0⟩, ⟨0, 1⟩⟩ rfl (by decide) (by decide) (by decide)
